import Mathlib

/-!
# Verification of the nuxt-open-fetch specification against its source

Shallow embedding of the repository's runtime dispatcher
(`src/runtime/fetch.ts`, provided as `src/unnamed/part_000`), the reactive
composable (`createUseOpenFetch` / `createAutoKey`), and the build-time
module (`src/module.ts`: schema resolution and the compile cache).

JavaScript strings are modelled as `List Char`; JavaScript records become
association lists in insertion order; `async`/`await` sequencing becomes
trace concatenation; the filesystem becomes an explicit association of
paths (segment lists) to contents.
-/

namespace NuxtOpenFetch

/-- Character strings, the model of JavaScript strings. -/
abbrev Str := List Char

/-! ## `fillPath` (runtime/fetch.ts, lines 179-182)

The source iterates over the entries of the parameter record and, for each
entry `(k, v)`, performs `path = path.replace(tok, encodeURIComponent(String(v)))`
where `tok` is the literal token consisting of `k` wrapped in braces.
`String.prototype.replace` with a string pattern replaces only the FIRST
occurrence of the pattern.  (The replacement string is always the output of
`encodeURIComponent`, which contains no dollar sign, so the substitution rules
of `String.replace` never apply and plain splicing is a faithful model.)
-/

/-- JS `String.prototype.replace(pat, repl)` with a string pattern:
replace the first occurrence of `pat` (if any) by `repl`. -/
def replaceFirst (pat repl : Str) : Str → Str
  | [] => if pat = [] then repl else []
  | c :: cs =>
    if pat.isPrefixOf (c :: cs) then repl ++ (c :: cs).drop pat.length
    else c :: replaceFirst pat repl cs

/-- The characters `encodeURIComponent` leaves unescaped:
`A-Z a-z 0-9 - _ . ! ~ * ' ( )`. -/
def uriUnreserved (c : Char) : Bool :=
  (('A' ≤ c ∧ c ≤ 'Z') ∨ ('a' ≤ c ∧ c ≤ 'z') ∨ ('0' ≤ c ∧ c ≤ '9')
    ∨ c = '-' ∨ c = '_' ∨ c = '.' ∨ c = '!' ∨ c = '~' ∨ c = '*'
    ∨ c.toNat = 39 ∨ c = '(' ∨ c = ')')

/-- Upper-case hexadecimal digit for a value `< 16`. -/
def hexDigitUpper (n : Nat) : Char :=
  if n < 10 then Char.ofNat ('0'.toNat + n) else Char.ofNat ('A'.toNat + (n - 10))

/-- UTF-8 bytes of a character (scalar values only, as in Lean's `Char`). -/
def utf8Bytes (c : Char) : List Nat :=
  let n := c.toNat
  if n < 0x80 then [n]
  else if n < 0x800 then [0xC0 + n / 64, 0x80 + n % 64]
  else if n < 0x10000 then [0xE0 + n / 4096, 0x80 + (n / 64) % 64, 0x80 + n % 64]
  else [0xF0 + n / 262144, 0x80 + (n / 4096) % 64, 0x80 + (n / 64) % 64, 0x80 + n % 64]

/-- `%XY` percent-escape of one byte. -/
def percentByte (b : Nat) : Str := ['%', hexDigitUpper (b / 16), hexDigitUpper (b % 16)]

/-- JS `encodeURIComponent`. -/
def encodeURIComponent (s : Str) : Str :=
  s.flatMap fun c =>
    if uriUnreserved c then [c] else (utf8Bytes c).flatMap percentByte

/-- The literal placeholder token `{k}` for a path-parameter name `k`. -/
def placeholder (k : Str) : Str := '{' :: (k ++ ['}'])

/-- `fillPath(path, params)` from runtime/fetch.ts lines 179-182: for each
entry of the parameter record in insertion order, splice the URL-encoded
value over the first occurrence of the `{name}` token. -/
def fillPath (path : Str) (params : List (Str × Str)) : Str :=
  params.foldl (fun p kv => replaceFirst (placeholder kv.1) (encodeURIComponent kv.2) p) path

example : fillPath "/pet/{petId}".data [("petId".data, "1".data)] = "/pet/1".data := by decide

example : fillPath "/a/{x}/{x}".data [("x".data, "v".data)] = "/a/v/{x}".data := by decide

example : fillPath "/a/{y}".data [("x".data, "v".data)] = "/a/{y}".data := by decide

example : fillPath "/a/{x}".data [("x".data, "b c".data)] = "/a/b%20c".data := by decide

/-- If the pattern does not occur in the string, `replaceFirst` is the
identity (JS `replace` returns the receiver unchanged). -/
theorem replaceFirst_no_occ (pat repl : Str) :
    ∀ s : Str, ¬ pat <:+: s → replaceFirst pat repl s = s := by
  intro s
  induction s with
  | nil =>
    intro h
    rw [replaceFirst, if_neg]
    intro he
    subst he
    exact h List.nil_infix
  | cons c cs ih =>
    intro h
    rw [replaceFirst, if_neg, ih (fun hi => h (List.infix_cons hi))]
    intro hpre
    exact h (List.isPrefixOf_iff_prefix.mp hpre).isInfix

/-- `replaceFirst` splices the replacement over the first occurrence of the
pattern: if the pattern does not occur before position `a.length`
(equivalently, not inside `a ++ pat.dropLast`), then
`replaceFirst pat repl (a ++ pat ++ b) = a ++ repl ++ b`. -/
theorem replaceFirst_first_occ (pat repl b : Str) :
    ∀ a : Str, ¬ pat <:+: (a ++ pat.dropLast) →
      replaceFirst pat repl (a ++ pat ++ b) = a ++ repl ++ b := by
  intro a
  induction a with
  | nil =>
    intro h
    have hpat : pat ≠ [] := by
      rintro rfl
      exact h List.nil_infix
    cases pat with
    | nil => exact absurd rfl hpat
    | cons p ps =>
      show replaceFirst (p :: ps) repl ((p :: ps) ++ b) = [] ++ repl ++ b
      rw [show ((p :: ps) ++ b) = p :: (ps ++ b) from rfl, replaceFirst, if_pos]
      · rw [show (p :: (ps ++ b)) = (p :: ps) ++ b from rfl, List.drop_left]
        simp
      · exact List.isPrefixOf_iff_prefix.mpr (List.prefix_append _ _)
  | cons c a' ih =>
    intro h
    have hpat : pat ≠ [] := by
      rintro rfl
      exact h List.nil_infix
    have hlen : pat.length ≤ ((c :: a') ++ pat.dropLast).length := by
      have : 1 ≤ pat.length := List.length_pos.mpr hpat
      simp [List.length_dropLast]
      omega
    show replaceFirst pat repl (c :: (a' ++ pat ++ b)) = (c :: a') ++ repl ++ b
    rw [replaceFirst, if_neg, ih (fun hi => h (List.infix_cons hi))]
    · rfl
    · intro hpre
      have h1 : pat <+: (c :: (a' ++ pat ++ b)) := List.isPrefixOf_iff_prefix.mp hpre
      have h2 : ((c :: a') ++ pat.dropLast) <+: (c :: (a' ++ pat ++ b)) := by
        have hd : pat.dropLast <+: pat := List.dropLast_prefix pat
        obtain ⟨t, ht⟩ := hd
        refine ⟨t ++ b, ?_⟩
        have e : ((c :: a') ++ pat.dropLast) ++ (t ++ b)
            = (c :: a') ++ ((pat.dropLast ++ t) ++ b) := by simp
        rw [e, ht]
        simp
      exact h (List.prefix_of_prefix_length_le h1 h2 hlen).isInfix

/-- If no supplied parameter's placeholder occurs in the template, `fillPath`
returns the template unchanged. -/
theorem fillPath_of_no_placeholder (params : List (Str × Str)) :
    ∀ path : Str, (∀ kv ∈ params, ¬ placeholder kv.1 <:+: path) →
      fillPath path params = path := by
  induction params with
  | nil =>
    intro path _
    rfl
  | cons kv ps ih =>
    intro path h
    show List.foldl _ (replaceFirst (placeholder kv.1) (encodeURIComponent kv.2) path) ps = path
    rw [replaceFirst_no_occ _ _ _ (h kv (List.mem_cons_self kv ps))]
    exact ih path (fun kv' hm => h kv' (List.mem_cons_of_mem kv hm))

/-- C1 (amended).  `fillPath` replaces, for each supplied parameter in record
order, only the FIRST occurrence of its placeholder token by the URL-encoded
value; placeholders of parameters not in the map pass through unchanged and
cause no error.  Part one: when no supplied placeholder occurs, the template
is returned unchanged.  Part two: for a supplied parameter `k` whose
placeholder first occurs at the split `a ++ placeholder k ++ b`, the result
splices the encoded value exactly there. -/
theorem C1_fillPath_amended (a b k v path : Str) (params : List (Str × Str)) :
    ((∀ kv ∈ params, ¬ placeholder kv.1 <:+: path) → fillPath path params = path) ∧
    (¬ placeholder k <:+: (a ++ (placeholder k).dropLast) →
      fillPath (a ++ placeholder k ++ b) [(k, v)] = a ++ encodeURIComponent v ++ b) := by
  constructor
  · exact fillPath_of_no_placeholder params path
  · intro h
    exact replaceFirst_first_occ (placeholder k) (encodeURIComponent v) b a h

/-- C1 counterexample: the template `/a/{x}/{x}` contains the placeholder of
the supplied parameter `x` twice; after interpolation the second occurrence
remains verbatim, refuting "no occurrence of a supplied parameter's
placeholder remains in the result". -/
theorem C1_counterexample :
    fillPath "/a/{x}/{x}".data [("x".data, "v".data)] = "/a/v/{x}".data ∧
    placeholder "x".data <:+: fillPath "/a/{x}/{x}".data [("x".data, "v".data)] := by
  constructor
  · decide
  · decide

/-- Witness for `C1_fillPath_amended` at concrete inputs. -/
theorem C1_witness :
    fillPath "/pet/{petId}".data [] = "/pet/{petId}".data ∧
    fillPath "/pet/{petId}".data [("petId".data, "1".data)] = "/pet/1".data := by
  constructor
  · exact (C1_fillPath_amended [] [] [] [] "/pet/{petId}".data []).1 (by simp)
  · have h := (C1_fillPath_amended "/pet/".data [] "petId".data "1".data [] []).2 (by decide)
    have e1 : "/pet/".data ++ placeholder "petId".data ++ [] = "/pet/{petId}".data := by decide
    have e2 : "/pet/".data ++ encodeURIComponent "1".data ++ [] = "/pet/1".data := by decide
    rw [e1, e2] at h
    exact h

/-! ## The dispatcher: `createOpenFetch` (runtime/fetch.ts, lines 119-167)

After merging base options with per-call options (lines 126-141) the
dispatcher: (1) replaces the body by `bodySerializer(body)` when both
`opts.body` and `opts.bodySerializer` are truthy (lines 143-145);
(2) promotes a singular `header` field to `headers` (lines 147-150);
(3) builds a `Headers` object and, when `opts.accept` is truthy, sets the
`Accept` header to the value or the array joined with a comma and a space
(lines 152-161); (4) calls the transport with `fillPath(url, opts.path)`
and the final options (line 165).  The model starts from the merged options
record and produces the transport invocation.  (The hook wrappers merged at
line 140 do not interact with these fields and are modelled separately.)
-/

/-- JavaScript runtime values (the fragment relevant to dispatch options). -/
inductive JSVal where
  | undefined
  | null
  | bool (b : Bool)
  | num (n : Int)
  | str (s : String)
  | obj (tag : Nat)
  deriving DecidableEq

/-- JS truthiness. -/
def truthy : JSVal → Bool
  | .undefined => false
  | .null => false
  | .bool b => b
  | .num n => n != 0
  | .str s => s != ""
  | .obj _ => true

/-- Header lists: name-value pairs (`HeadersInit` in pair form). -/
abbrev HeaderList := List (String × String)

/-- ASCII lower-casing of one character (header names are ASCII). -/
def charLower (c : Char) : Char :=
  if 'A' ≤ c ∧ c ≤ 'Z' then Char.ofNat (c.toNat + 32) else c

/-- ASCII lower-casing of a header name, the normalization `Headers`
applies to every name. -/
def strLower (s : String) : String := ⟨s.data.map charLower⟩

/-- `Headers` append semantics: names are lower-cased, and appending a value
for an existing name joins it onto the old value with a comma and a space. -/
def headersAppend (hs : HeaderList) (name val : String) : HeaderList :=
  let n := strLower name
  if hs.any (fun kv => kv.1 = n) then
    hs.map (fun kv => if kv.1 = n then (kv.1, kv.2 ++ ", " ++ val) else kv)
  else hs ++ [(n, val)]

/-- `new Headers(init)` from a pair list: append every entry in order.
The result never contains two entries with the same (lower-cased) name. -/
def mkHeaders (init : HeaderList) : HeaderList :=
  init.foldl (fun hs kv => headersAppend hs kv.1 kv.2) []

/-- `Headers.set`: overwrite the value under the (lower-cased) name, or
append a fresh entry when the name is not present. -/
def headersSet (hs : HeaderList) (name val : String) : HeaderList :=
  let n := strLower name
  if hs.any (fun kv => kv.1 = n) then
    hs.map (fun kv => if kv.1 = n then (kv.1, val) else kv)
  else hs ++ [(n, val)]

/-- `Headers.get`: case-insensitive lookup. -/
def headersGet (hs : HeaderList) (name : String) : Option String :=
  (hs.find? (fun kv => kv.1 = strLower name)).map (fun kv => kv.2)

/-- The `accept` option: absent, a single media type, or an ordered array. -/
inductive AcceptOpt where
  | absent
  | single (m : String)
  | list (ms : List String)
  deriving DecidableEq

/-- JS truthiness of `opts.accept` (`if (opts.accept)`, line 153): a string
is truthy iff nonempty; an array object is always truthy. -/
def AcceptOpt.isTruthy : AcceptOpt → Bool
  | .absent => false
  | .single m => m != ""
  | .list _ => true

/-- Lines 156-158: `Array.isArray(opts.accept) ? opts.accept.join(', ') :
opts.accept`. -/
def AcceptOpt.joined : AcceptOpt → String
  | .absent => ""
  | .single m => m
  | .list ms => String.intercalate ", " ms

/-- The merged per-call options record as of line 141. -/
structure DispatchOpts where
  body : JSVal
  bodySerializer : Option (JSVal → JSVal)
  header : Option HeaderList
  headers : Option HeaderList
  accept : AcceptOpt
  path : List (Str × Str)

/-- What the transport (`$fetch`, line 165) receives. -/
structure TransportCall where
  url : Str
  body : JSVal
  headers : HeaderList

/-- The dispatcher pipeline (lines 143-165), from the merged options to the
transport invocation. -/
def dispatch (url : Str) (opts : DispatchOpts) : TransportCall :=
  let body := match opts.bodySerializer with
    | some f => if truthy opts.body then f opts.body else opts.body
    | none => opts.body
  let init := match opts.header with
    | some h => h
    | none => opts.headers.getD []
  let headers := mkHeaders init
  let headers :=
    if opts.accept.isTruthy then headersSet headers "Accept" opts.accept.joined
    else headers
  ⟨fillPath url opts.path, body, headers⟩

/-- `Headers.get` after `Headers.set` of the same name yields the set value. -/
theorem headersGet_headersSet (hs : HeaderList) (name val : String) :
    headersGet (headersSet hs name val) name = some val := by
  unfold headersSet headersGet
  by_cases hx : hs.any (fun kv => kv.1 = strLower name)
  · rw [if_pos hx]
    rw [List.any_eq_true] at hx
    obtain ⟨kv, hmem, hkv⟩ := hx
    have hkv' : kv.1 = strLower name := by simpa using hkv
    clear hkv
    induction hs with
    | nil => simp at hmem
    | cons hd tl ih =>
      by_cases hhd : hd.1 = strLower name
      · simp only [List.map_cons, if_pos hhd]
        rw [List.find?_cons_of_pos _ (by simp [hhd])]
        simp
      · rcases List.mem_cons.mp hmem with h1 | h1
        · exact absurd (h1 ▸ hkv') hhd
        · simp only [List.map_cons, if_neg hhd]
          rw [List.find?_cons_of_neg _ (by simp [hhd])]
          exact ih h1
  · rw [if_neg hx]
    have hx' : ∀ kv ∈ hs, ¬ kv.1 = strLower name := by
      intro kv hm he
      exact hx (List.any_eq_true.mpr ⟨kv, hm, by simpa using he⟩)
    clear hx
    induction hs with
    | nil => simp [List.find?]
    | cons hd tl ih =>
      have hhd : ¬ hd.1 = strLower name := hx' hd (List.mem_cons_self hd tl)
      rw [List.cons_append, List.find?_cons_of_neg _ (by simp [hhd])]
      exact ih (fun kv hm => hx' kv (List.mem_cons_of_mem hd hm))

/-- C2.  When the merged options carry an `accept` field the dispatcher sets
the `Accept` header to the single media type, respectively to the array
joined with a comma and a space in the caller's exact order (no reordering,
no deduplication); when `accept` is absent the Accept header is left exactly
as the caller's own headers produced it. -/
theorem C2_accept_header (url : Str) (opts : DispatchOpts) :
    (∀ m, opts.accept = .single m → m ≠ "" →
      headersGet (dispatch url opts).headers "Accept" = some m) ∧
    (∀ ms, opts.accept = .list ms →
      headersGet (dispatch url opts).headers "Accept"
        = some (String.intercalate ", " ms)) ∧
    (opts.accept = .absent →
      headersGet (dispatch url opts).headers "Accept"
        = headersGet (mkHeaders (opts.header.getD (opts.headers.getD []))) "Accept") := by
  refine ⟨?_, ?_, ?_⟩
  · intro m hm hne
    have ht : opts.accept.isTruthy = true := by
      rw [hm]
      simpa [AcceptOpt.isTruthy] using hne
    show headersGet
      (if opts.accept.isTruthy then
        headersSet (mkHeaders _) "Accept" opts.accept.joined
       else mkHeaders _) "Accept" = some m
    rw [if_pos ht, hm]
    exact headersGet_headersSet _ _ _
  · intro ms hm
    have ht : opts.accept.isTruthy = true := by rw [hm]; rfl
    show headersGet
      (if opts.accept.isTruthy then
        headersSet (mkHeaders _) "Accept" opts.accept.joined
       else mkHeaders _) "Accept" = some (String.intercalate ", " ms)
    rw [if_pos ht, hm]
    exact headersGet_headersSet _ _ _
  · intro hm
    have ht : opts.accept.isTruthy = false := by rw [hm]; rfl
    show headersGet
      (if opts.accept.isTruthy then
        headersSet (mkHeaders _) "Accept" opts.accept.joined
       else mkHeaders _) "Accept" = _
    rw [if_neg (by simp [ht])]
    cases hh : opts.header with
    | some h => simp [hh]
    | none => simp [hh]

/-- Witness for `C2_accept_header` at concrete inputs: a single media type,
an ordered two-element list (joined in order, undeduplicated), and the
absent case with a caller-supplied Accept header. -/
theorem C2_witness :
    headersGet (dispatch []
        ⟨.undefined, none, none, none, .single "application/json", []⟩).headers
      "Accept" = some "application/json" ∧
    headersGet (dispatch []
        ⟨.undefined, none, none, none,
          .list ["application/vnd.petstore.v2+json", "application/vnd.petstore.v1+json"],
          []⟩).headers
      "Accept" = some "application/vnd.petstore.v2+json, application/vnd.petstore.v1+json" ∧
    headersGet (dispatch []
        ⟨.undefined, none, none, some [("Accept", "text/html")], .absent, []⟩).headers
      "Accept" = some "text/html" := by
  refine ⟨?_, ?_, ?_⟩
  · exact (C2_accept_header [] _).1 "application/json" rfl (by decide)
  · exact ((C2_accept_header [] _).2.1 _ rfl).trans (by decide)
  · exact ((C2_accept_header [] _).2.2 rfl).trans (by decide)

/-- C3 counterexample: a call that supplies a `bodySerializer` together with
a present but falsy body (the empty string) reaches the transport with the
ORIGINAL body, not the serializer's output: the guard on line 143 is
`opts.body && opts.bodySerializer`, a truthiness test rather than a presence
test. -/
theorem C3_counterexample :
    (dispatch [] ⟨JSVal.str "", some (fun _ => JSVal.str "SERIALIZED"), none, none,
        .absent, []⟩).body = JSVal.str "" ∧
    (dispatch [] ⟨JSVal.str "", some (fun _ => JSVal.str "SERIALIZED"), none, none,
        .absent, []⟩).body ≠ (fun _ => JSVal.str "SERIALIZED") (JSVal.str "") := by
  constructor
  · rfl
  · decide

/-- C3 (amended).  Whenever a `bodySerializer` is supplied and the body is
present and truthy, the transport receives `bodySerializer(body)` and never
the original unserialized body; an absent or falsy body is passed through
unserialized. -/
theorem C3_body_serializer_amended (url : Str) (opts : DispatchOpts)
    (f : JSVal → JSVal) (hf : opts.bodySerializer = some f)
    (hb : truthy opts.body = true) :
    (dispatch url opts).body = f opts.body := by
  show (match opts.bodySerializer with
    | some f => if truthy opts.body then f opts.body else opts.body
    | none => opts.body) = f opts.body
  rw [hf]
  simp [hb]

/-- Witness for `C3_body_serializer_amended` at a concrete input. -/
theorem C3_witness :
    (dispatch [] ⟨JSVal.str "doggie", some (fun _ => JSVal.str "FORM"), none, none,
        .absent, []⟩).body = JSVal.str "FORM" :=
  C3_body_serializer_amended [] _ _ rfl (by decide)

/-! ## The hook bridge: `createHook` (runtime/fetch.ts, lines 81-99)

```
await hooks.callHook(globalChannel, ...args)
if (hookIdentifier) await hooks.callHook(namedChannel, ...args)
const baseHook = baseOpts[hook]
if (baseHook) await (Array.isArray(baseHook) ? Promise.all(...) : baseHook(ctx))
```

Handlers are modelled as functions from a context to the trace of events
they emit; `await`-sequencing becomes trace concatenation.  `Promise.all`
over `baseHook.map(h => h(ctx))` starts the handlers in array order; with
handler bodies modelled as atomic this start order is the schedule, so the
one stage contributes its handlers' traces in array order.
-/

/-- The four ofetch lifecycle hook kinds. -/
inductive HookKind where
  | onRequest
  | onRequestError
  | onResponse
  | onResponseError
  deriving DecidableEq

/-- The string name of a hook kind, as used in channel names. -/
def HookKind.str : HookKind → String
  | .onRequest => "onRequest"
  | .onRequestError => "onRequestError"
  | .onResponse => "onResponse"
  | .onResponseError => "onResponseError"

/-- A handler: consumes the fetch context, emits a trace of events. -/
abbrev Handler (Ctx Ev : Type) := Ctx → List Ev

/-- The hookable event bus: registered handlers per channel name. -/
structure HookBus (Ctx Ev : Type) where
  handlers : String → List (Handler Ctx Ev)

/-- `hooks.callHook(name, ctx)`: the hookable bus runs the channel's
registered handlers serially; the emitted trace is their concatenation. -/
def HookBus.callHook (h : HookBus Ctx Ev) (name : String) (ctx : Ctx) : List Ev :=
  (h.handlers name).flatMap (fun f => f ctx)

/-- The locally-supplied handler from the call options: a single function
or an array of functions (`FetchHooks` allows both). -/
inductive LocalHook (Ctx Ev : Type) where
  | single (f : Handler Ctx Ev)
  | arr (fs : List (Handler Ctx Ev))

/-- The hook-relevant part of the merged call options `baseOpts`:
`baseOpts[hook]` for each of the four kinds (`none` = not supplied). -/
structure HookOpts (Ctx Ev : Type) where
  onRequest : Option (LocalHook Ctx Ev)
  onRequestError : Option (LocalHook Ctx Ev)
  onResponse : Option (LocalHook Ctx Ev)
  onResponseError : Option (LocalHook Ctx Ev)

/-- `baseOpts[hook]`. -/
def HookOpts.hookOf (o : HookOpts Ctx Ev) : HookKind → Option (LocalHook Ctx Ev)
  | .onRequest => o.onRequest
  | .onRequestError => o.onRequestError
  | .onResponse => o.onResponse
  | .onResponseError => o.onResponseError

/-- `createHook` (lines 81-99): the wrapper installed for hook kind `hook`;
it awaits the global channel, then (when a truthy client identifier is
bound) the per-client channel, then the locally supplied handler(s). -/
def createHook (hooks : HookBus Ctx Ev) (baseOpts : HookOpts Ctx Ev)
    (hook : HookKind) (hookIdentifier : Option String) : Handler Ctx Ev :=
  fun ctx =>
    hooks.callHook ("openFetch:" ++ hook.str) ctx
    ++ (match hookIdentifier with
        | some hid =>
          if hid = "" then []
          else hooks.callHook ("openFetch:" ++ hook.str ++ ":" ++ hid) ctx
        | none => [])
    ++ (match baseOpts.hookOf hook with
        | some (.single f) => f ctx
        | some (.arr fs) => fs.flatMap (fun f => f ctx)
        | none => [])

/-- C4.  For a call bound to client name `n` (nonempty) and hook kind `k`,
given the bus's registered handler lists for the global channel and for the
per-client channel, the trace of the installed wrapper is exactly: all
global-channel handlers' events, then all per-client-channel handlers'
events, then the events of the locally supplied stage (a single handler's
trace, the array handlers' traces in array order, or nothing) — each stage
completes before the next starts. -/
theorem C4_hook_stage_order (hooks : HookBus Ctx Ev) (baseOpts : HookOpts Ctx Ev)
    (k : HookKind) (n : String) (ctx : Ctx)
    (gs ns : List (Handler Ctx Ev))
    (hn : n ≠ "")
    (hg : hooks.handlers ("openFetch:" ++ k.str) = gs)
    (hh : hooks.handlers ("openFetch:" ++ k.str ++ ":" ++ n) = ns) :
    (baseOpts.hookOf k = none →
      createHook hooks baseOpts k (some n) ctx
        = gs.flatMap (fun f => f ctx) ++ ns.flatMap (fun f => f ctx)) ∧
    (∀ f, baseOpts.hookOf k = some (.single f) →
      createHook hooks baseOpts k (some n) ctx
        = gs.flatMap (fun f => f ctx) ++ ns.flatMap (fun f => f ctx) ++ f ctx) ∧
    (∀ fs, baseOpts.hookOf k = some (.arr fs) →
      createHook hooks baseOpts k (some n) ctx
        = gs.flatMap (fun f => f ctx) ++ ns.flatMap (fun f => f ctx)
          ++ fs.flatMap (fun f => f ctx)) := by
  refine ⟨?_, ?_, ?_⟩
  · intro hb
    simp [createHook, HookBus.callHook, hg, hh, hb, hn]
  · intro f hb
    simp [createHook, HookBus.callHook, hg, hh, hb, hn]
  · intro fs hb
    simp [createHook, HookBus.callHook, hg, hh, hb, hn]

/-- Witness for `C4_hook_stage_order`: one global handler, one per-client
handler and two local array handlers, each emitting its own tag; the
observed log is global, then named, then the local handlers in order. -/
theorem C4_witness :
    createHook
      ⟨fun s =>
        if s = "openFetch:onResponse" then [fun _ => ["global"]]
        else if s = "openFetch:onResponse:api" then [fun _ => ["named"]]
        else []⟩
      ⟨none, none, some (.arr [fun _ => ["local1"], fun _ => ["local2"]]), none⟩
      HookKind.onResponse (some "api") ()
      = ["global", "named", "local1", "local2"] := by
  have h := (@C4_hook_stage_order Unit String
    ⟨fun s =>
      if s = "openFetch:onResponse" then [fun _ => ["global"]]
      else if s = "openFetch:onResponse:api" then [fun _ => ["named"]]
      else []⟩
    ⟨none, none, some (.arr [fun _ => ["local1"], fun _ => ["local2"]]), none⟩
    HookKind.onResponse "api" () [fun _ => ["global"]] [fun _ => ["named"]]
    (by decide)
    (by
      rw [show ("openFetch:" ++ HookKind.onResponse.str) = "openFetch:onResponse" by decide]
      dsimp only
      rw [if_pos rfl])
    (by
      rw [show ("openFetch:" ++ HookKind.onResponse.str ++ ":" ++ "api")
        = "openFetch:onResponse:api" by decide]
      dsimp only
      rw [if_neg (by decide), if_pos rfl])).2.2
    [fun _ => ["local1"], fun _ => ["local2"]] rfl
  simpa using h

/-! ## The schema cache: `addCachedSchemaTemplate` (src/module.ts, lines 340-385)

The filesystem is modelled as an association of paths (segment lists) to
contents.  The external collaborators — the schema compiler
(`openapiTS` + `astToString`), the fingerprint hash (`ohash.hash`) and the
`kebabCase` short-name — are opaque function parameters; `openAPITS`
compiler options are an opaque value.  `unlink` failures are modelled by a
set of locked paths whose deletion silently fails, matching the
`try { await unlink(..) } catch {}` of lines 377-380.
-/

/-- Filesystem paths as segment lists. -/
abbrev FsPath := List String

/-- A flat filesystem: full path to file contents. -/
abbrev FS := List (FsPath × String)

/-- `readFile` (also the model of `existsSync`: the read succeeds). -/
def FS.readFile (fs : FS) (p : FsPath) : Option String :=
  (fs.find? (fun kv => kv.1 = p)).map (fun kv => kv.2)

/-- `writeFile`: create or overwrite. -/
def FS.writeFile (fs : FS) (p : FsPath) (c : String) : FS :=
  (p, c) :: fs.filter (fun kv => kv.1 ≠ p)

/-- `unlink` with a best-effort error model: deleting a path in `locked`
fails (and the caller swallows the failure), all others are removed. -/
def FS.unlink (locked : List FsPath) (fs : FS) (p : FsPath) : FS :=
  if p ∈ locked then fs else fs.filter (fun kv => kv.1 ≠ p)

/-- `readdir dir`: base names of the files directly under `dir`. -/
def FS.readdir (fs : FS) (dir : FsPath) : List String :=
  fs.filterMap (fun kv =>
    if kv.1.length = dir.length + 1 ∧ kv.1.take dir.length = dir then kv.1.getLast?
    else none)

/-- JS `String.prototype.startsWith`. -/
def strStartsWith (s pre : String) : Bool := pre.data.isPrefixOf s.data

/-- A schema source as it reaches `addCachedSchemaTemplate`: a `URL` object
(always `file://`, built at module.ts lines 91 and 97), a plain string that
names a filesystem path, a plain string that is a well-formed URL (for which
`existsSync` is always false), or a non-string document (inline object or
stream), which is never a string and hence never cached. -/
inductive SchemaSource where
  | fileURL (p : FsPath)
  | strPath (p : FsPath)
  | remoteStr (u : String)
  | inlineDoc (d : String)
  deriving DecidableEq

/-- Lines 353-354: `schema instanceof URL ? fileURLToPath(schema) : schema`
followed by `typeof filePath === 'string' && existsSync(filePath)`.
A URL-shaped string is a string but never an existing file, and a non-string
document has no path, so both fall to the uncached branch. -/
def filePathOf : SchemaSource → Option FsPath
  | .fileURL p => some p
  | .strPath p => some p
  | .remoteStr _ => none
  | .inlineDoc _ => none

/-- Result of one `addCachedSchemaTemplate` run: the returned contents, the
filesystem afterwards, and how many times the schema compiler ran. -/
structure CacheRun where
  contents : String
  fs : FS
  compiles : Nat

/-- The cache artifact base name `shortName-key.ts` for a fingerprint key. -/
def cachedBaseName (shortName key : String) : String := shortName ++ "-" ++ key ++ ".ts"

/-- The pruning loop of lines 375-382: for every entry of `readdir(cacheDir)`
whose name starts with `shortName-` and is not the just-written artifact
`base`, try to `unlink` it, swallowing failures. -/
def pruneCache (locked : List FsPath) (cacheDir : FsPath) (shortName base : String)
    (fs : FS) : FS :=
  (fs.readdir cacheDir).foldl
    (fun acc file =>
      if strStartsWith file (shortName ++ "-") ∧ file ≠ base then
        FS.unlink locked acc (cacheDir ++ [file])
      else acc) fs

/-- `addCachedSchemaTemplate` (module.ts lines 340-385).  `compile` is the
black-box `openapiTS`/`astToString` pass, `hashFn` the fingerprint hash over
`[schema, openAPITS, moduleName, shortName, fileBody]`, `shortName` the
kebab-cased client name, `cacheDir` the per-module cache directory. -/
def addCachedSchemaTemplate
    (compile : SchemaSource → String → String)
    (hashFn : SchemaSource → String → String → String → String → String)
    (locked : List FsPath) (cacheDir : FsPath) (moduleName shortName : String)
    (schema : SchemaSource) (openAPITS : String) (fs : FS) : CacheRun :=
  match filePathOf schema with
  | none => ⟨compile schema openAPITS, fs, 1⟩
  | some p =>
    match fs.readFile p with
    | none => ⟨compile schema openAPITS, fs, 1⟩
    | some fileBody =>
      let key := hashFn schema openAPITS moduleName shortName fileBody
      let cachedBase := cachedBaseName shortName key
      match fs.readFile (cacheDir ++ [cachedBase]) with
      | some cached => ⟨cached, fs, 0⟩
      | none =>
        let contents := compile schema openAPITS
        let fs1 := fs.writeFile (cacheDir ++ [cachedBase]) contents
        ⟨contents, pruneCache locked cacheDir shortName cachedBase fs1, 1⟩

/-- Reading back a just-written file yields the written contents. -/
theorem FS.readFile_writeFile_self (fs : FS) (p : FsPath) (c : String) :
    (fs.writeFile p c).readFile p = some c := by
  simp [FS.writeFile, FS.readFile, List.find?]

/-- Writing one path leaves reads of other paths unchanged. -/
theorem FS.readFile_writeFile_other (fs : FS) (p : FsPath) (c : String)
    (q : FsPath) (h : q ≠ p) :
    (fs.writeFile p c).readFile q = fs.readFile q := by
  unfold FS.writeFile FS.readFile
  rw [List.find?_cons_of_neg _ (by simpa using fun he => absurd he.symm h)]
  induction fs with
  | nil => rfl
  | cons hd tl ih =>
    by_cases hp : hd.1 = p
    · rw [show List.filter (fun kv => decide (kv.1 ≠ p)) (hd :: tl)
          = List.filter (fun kv => decide (kv.1 ≠ p)) tl by
        simp [List.filter, hp]]
      rw [List.find?_cons_of_neg _ (by simp [hp]; exact fun he => h he.symm)]
      exact ih
    · rw [show List.filter (fun kv => decide (kv.1 ≠ p)) (hd :: tl)
          = hd :: List.filter (fun kv => decide (kv.1 ≠ p)) tl by
        simp [List.filter, hp]]
      by_cases hq : hd.1 = q
      · rw [List.find?_cons_of_pos _ (by simp [hq]), List.find?_cons_of_pos _ (by simp [hq])]
      · rw [List.find?_cons_of_neg _ (by simp [hq]), List.find?_cons_of_neg _ (by simp [hq])]
        exact ih

/-- Unlinking one path leaves reads of other paths unchanged. -/
theorem FS.readFile_unlink_other (locked : List FsPath) (fs : FS) (p : FsPath)
    (q : FsPath) (h : q ≠ p) :
    (FS.unlink locked fs p).readFile q = fs.readFile q := by
  unfold FS.unlink
  by_cases hl : p ∈ locked
  · rw [if_pos hl]
  · rw [if_neg hl]
    unfold FS.readFile
    induction fs with
    | nil => rfl
    | cons hd tl ih =>
      by_cases hp : hd.1 = p
      · rw [show List.filter (fun kv => decide (kv.1 ≠ p)) (hd :: tl)
            = List.filter (fun kv => decide (kv.1 ≠ p)) tl by
          simp [List.filter, hp]]
        rw [List.find?_cons_of_neg _ (by simp [hp]; exact fun he => h he.symm)]
        exact ih
      · rw [show List.filter (fun kv => decide (kv.1 ≠ p)) (hd :: tl)
            = hd :: List.filter (fun kv => decide (kv.1 ≠ p)) tl by
          simp [List.filter, hp]]
        by_cases hq : hd.1 = q
        · rw [List.find?_cons_of_pos _ (by simp [hq]), List.find?_cons_of_pos _ (by simp [hq])]
        · rw [List.find?_cons_of_neg _ (by simp [hq]), List.find?_cons_of_neg _ (by simp [hq])]
          exact ih

/-- Unlinking an unlocked path removes it. -/
theorem FS.readFile_unlink_self (locked : List FsPath) (fs : FS) (p : FsPath)
    (h : p ∉ locked) : (FS.unlink locked fs p).readFile p = none := by
  unfold FS.unlink FS.readFile
  rw [if_neg h]
  induction fs with
  | nil => rfl
  | cons hd tl ih =>
    by_cases hp : hd.1 = p
    · rw [show List.filter (fun kv => decide (kv.1 ≠ p)) (hd :: tl)
          = List.filter (fun kv => decide (kv.1 ≠ p)) tl by
        simp [List.filter, hp]]
      exact ih
    · rw [show List.filter (fun kv => decide (kv.1 ≠ p)) (hd :: tl)
          = hd :: List.filter (fun kv => decide (kv.1 ≠ p)) tl by
        simp [List.filter, hp]]
      rw [List.find?_cons_of_neg _ (by simp [hp])]
      exact ih

/-- Unlinking never resurrects a missing file. -/
theorem FS.readFile_unlink_none (locked : List FsPath) (fs : FS) (p q : FsPath)
    (h : fs.readFile q = none) : (FS.unlink locked fs p).readFile q = none := by
  by_cases hq : q = p
  · subst hq
    by_cases hl : q ∈ locked
    · unfold FS.unlink
      rw [if_pos hl]
      exact h
    · exact FS.readFile_unlink_self locked fs q hl
  · rw [FS.readFile_unlink_other locked fs p q hq]
    exact h

/-- A file that exists directly under `dir` is listed by `readdir`. -/
theorem FS.mem_readdir_of_readFile (fs : FS) (dir : FsPath) (b : String)
    (h : (fs.readFile (dir ++ [b])).isSome) : b ∈ fs.readdir dir := by
  unfold FS.readFile at h
  obtain ⟨c, hc⟩ := Option.isSome_iff_exists.mp h
  obtain ⟨kv, hfind, _⟩ := Option.map_eq_some'.mp hc
  have hmem := List.mem_of_find?_eq_some hfind
  have hkv' : kv.1 = dir ++ [b] := by simpa using List.find?_some hfind
  unfold FS.readdir
  apply List.mem_filterMap.mpr
  refine ⟨kv, hmem, ?_⟩
  rw [hkv']
  rw [if_pos ⟨by simp, by simp [List.take_left]⟩]
  simp

/-- The pruning fold only touches paths directly under `dir` whose base name
satisfies the deletion condition; any other path reads unchanged. -/
theorem prune_readFile_other (locked : List FsPath) (dir : FsPath)
    (cond : String → Prop) [DecidablePred cond] :
    ∀ (l : List String) (acc : FS) (q : FsPath),
      (∀ file ∈ l, cond file → q ≠ dir ++ [file]) →
      (l.foldl (fun a file => if cond file then FS.unlink locked a (dir ++ [file]) else a)
          acc).readFile q
        = acc.readFile q := by
  intro l
  induction l with
  | nil =>
    intro acc q _
    rfl
  | cons hd tl ih =>
    intro acc q hq
    rw [List.foldl_cons]
    by_cases hc : cond hd
    · rw [if_pos hc, ih _ _ (fun file hm hcf => hq file (List.mem_cons_of_mem hd hm) hcf)]
      exact FS.readFile_unlink_other locked acc (dir ++ [hd]) q
        (hq hd (List.mem_cons_self hd tl) hc)
    · rw [if_neg hc]
      exact ih _ _ (fun file hm hcf => hq file (List.mem_cons_of_mem hd hm) hcf)

/-- The pruning fold never resurrects a missing file. -/
theorem prune_readFile_none (locked : List FsPath) (dir : FsPath)
    (cond : String → Prop) [DecidablePred cond] :
    ∀ (l : List String) (acc : FS) (q : FsPath), acc.readFile q = none →
      (l.foldl (fun a file => if cond file then FS.unlink locked a (dir ++ [file]) else a)
          acc).readFile q = none := by
  intro l
  induction l with
  | nil =>
    intro acc q h
    exact h
  | cons hd tl ih =>
    intro acc q h
    rw [List.foldl_cons]
    by_cases hc : cond hd
    · rw [if_pos hc]
      exact ih _ _ (FS.readFile_unlink_none locked acc (dir ++ [hd]) q h)
    · rw [if_neg hc]
      exact ih _ _ h

/-- The pruning fold deletes every listed file that satisfies the condition
and is not locked. -/
theorem prune_removes (locked : List FsPath) (dir : FsPath)
    (cond : String → Prop) [DecidablePred cond] :
    ∀ (l : List String) (acc : FS) (b : String), b ∈ l → cond b →
      dir ++ [b] ∉ locked →
      (l.foldl (fun a file => if cond file then FS.unlink locked a (dir ++ [file]) else a)
          acc).readFile (dir ++ [b]) = none := by
  intro l
  induction l with
  | nil =>
    intro acc b hm
    simp at hm
  | cons hd tl ih =>
    intro acc b hm hc hl
    rw [List.foldl_cons]
    rcases List.mem_cons.mp hm with h1 | h1
    · subst h1
      rw [if_pos hc]
      exact prune_readFile_none locked dir cond tl _ _
        (FS.readFile_unlink_self locked acc (dir ++ [b]) hl)
    · by_cases hchd : cond hd
      · rw [if_pos hchd]
        exact ih _ b h1 hc hl
      · rw [if_neg hchd]
        exact ih _ b h1 hc hl

/-- Specialization of `prune_readFile_other` to `pruneCache`. -/
theorem pruneCache_readFile_other (locked : List FsPath) (cacheDir : FsPath)
    (shortName base : String) (fs : FS) (q : FsPath)
    (hq : ∀ file, strStartsWith file (shortName ++ "-") = true → file ≠ base →
      q ≠ cacheDir ++ [file]) :
    (pruneCache locked cacheDir shortName base fs).readFile q = fs.readFile q := by
  unfold pruneCache
  exact prune_readFile_other locked cacheDir _ _ _ _
    (fun file _ hcf => hq file hcf.1 hcf.2)

/-- Specialization of `prune_readFile_none` to `pruneCache`. -/
theorem pruneCache_readFile_none (locked : List FsPath) (cacheDir : FsPath)
    (shortName base : String) (fs : FS) (q : FsPath) (h : fs.readFile q = none) :
    (pruneCache locked cacheDir shortName base fs).readFile q = none := by
  unfold pruneCache
  exact prune_readFile_none locked cacheDir _ _ _ _ h

/-- Specialization of `prune_removes` to `pruneCache`. -/
theorem pruneCache_removes (locked : List FsPath) (cacheDir : FsPath)
    (shortName base : String) (fs : FS) (b : String)
    (hmem : b ∈ fs.readdir cacheDir) (hpre : strStartsWith b (shortName ++ "-") = true)
    (hne : b ≠ base) (hl : cacheDir ++ [b] ∉ locked) :
    (pruneCache locked cacheDir shortName base fs).readFile (cacheDir ++ [b]) = none := by
  unfold pruneCache
  exact prune_removes locked cacheDir _ _ _ b hmem ⟨hpre, hne⟩ hl

/-- Cache-hit characterization of `addCachedSchemaTemplate`: an existing
artifact under the exact fingerprint is returned unchanged with no compile
and no filesystem mutation. -/
theorem addCached_hit
    (compile : SchemaSource → String → String)
    (hashFn : SchemaSource → String → String → String → String → String)
    (locked : List FsPath) (cacheDir : FsPath) (moduleName shortName : String)
    (schema : SchemaSource) (openAPITS : String) (fs : FS) (p : FsPath)
    (body cached : String)
    (hp : filePathOf schema = some p) (hb : fs.readFile p = some body)
    (hhit : fs.readFile (cacheDir ++
      [cachedBaseName shortName (hashFn schema openAPITS moduleName shortName body)])
        = some cached) :
    addCachedSchemaTemplate compile hashFn locked cacheDir moduleName shortName schema
      openAPITS fs = ⟨cached, fs, 0⟩ := by
  simp only [addCachedSchemaTemplate, hp, hb, hhit]

/-- Cache-miss characterization of `addCachedSchemaTemplate`: compile, write
the artifact under the fingerprint name, then prune. -/
theorem addCached_miss
    (compile : SchemaSource → String → String)
    (hashFn : SchemaSource → String → String → String → String → String)
    (locked : List FsPath) (cacheDir : FsPath) (moduleName shortName : String)
    (schema : SchemaSource) (openAPITS : String) (fs : FS) (p : FsPath) (body : String)
    (hp : filePathOf schema = some p) (hb : fs.readFile p = some body)
    (hmiss : fs.readFile (cacheDir ++
      [cachedBaseName shortName (hashFn schema openAPITS moduleName shortName body)])
        = none) :
    addCachedSchemaTemplate compile hashFn locked cacheDir moduleName shortName schema
      openAPITS fs
      = ⟨compile schema openAPITS,
          pruneCache locked cacheDir shortName
            (cachedBaseName shortName (hashFn schema openAPITS moduleName shortName body))
            (fs.writeFile (cacheDir ++
              [cachedBaseName shortName (hashFn schema openAPITS moduleName shortName body)])
              (compile schema openAPITS)),
          1⟩ := by
  simp only [addCachedSchemaTemplate, hp, hb, hmiss]

/-- C5.  For a file-backed schema whose file lies outside the cache
directory, running `addCachedSchemaTemplate` a second time on the filesystem
left by a first run — with unchanged file contents, compiler options, module
name and short name, hence an equal fingerprint — returns byte-identical
contents and performs ZERO compiler invocations on the second run. -/
theorem C5_cache_hit
    (compile : SchemaSource → String → String)
    (hashFn : SchemaSource → String → String → String → String → String)
    (locked : List FsPath) (cacheDir : FsPath) (moduleName shortName : String)
    (schema : SchemaSource) (openAPITS : String) (fs : FS) (p : FsPath)
    (hp : filePathOf schema = some p)
    (hbody : (fs.readFile p).isSome)
    (hout : ∀ b : String, p ≠ cacheDir ++ [b]) :
    (addCachedSchemaTemplate compile hashFn locked cacheDir moduleName shortName schema openAPITS
        (addCachedSchemaTemplate compile hashFn locked cacheDir moduleName shortName schema
          openAPITS fs).fs).contents
      = (addCachedSchemaTemplate compile hashFn locked cacheDir moduleName shortName schema
          openAPITS fs).contents ∧
    (addCachedSchemaTemplate compile hashFn locked cacheDir moduleName shortName schema openAPITS
        (addCachedSchemaTemplate compile hashFn locked cacheDir moduleName shortName schema
          openAPITS fs).fs).compiles = 0 := by
  obtain ⟨body, hb⟩ := Option.isSome_iff_exists.mp hbody
  cases h1 : fs.readFile (cacheDir ++
      [cachedBaseName shortName (hashFn schema openAPITS moduleName shortName body)]) with
  | some cached =>
    rw [addCached_hit compile hashFn locked cacheDir moduleName shortName schema openAPITS
      fs p body cached hp hb h1]
    rw [addCached_hit compile hashFn locked cacheDir moduleName shortName schema openAPITS
      fs p body cached hp hb h1]
    exact ⟨rfl, rfl⟩
  | none =>
    rw [addCached_miss compile hashFn locked cacheDir moduleName shortName schema openAPITS
      fs p body hp hb h1]
    have hb2 : (pruneCache locked cacheDir shortName
        (cachedBaseName shortName (hashFn schema openAPITS moduleName shortName body))
        (fs.writeFile (cacheDir ++
          [cachedBaseName shortName (hashFn schema openAPITS moduleName shortName body)])
          (compile schema openAPITS))).readFile p = some body := by
      rw [pruneCache_readFile_other _ _ _ _ _ _ (fun file _ _ => hout file)]
      rw [FS.readFile_writeFile_other _ _ _ _ (hout _)]
      exact hb
    have hhit2 : (pruneCache locked cacheDir shortName
        (cachedBaseName shortName (hashFn schema openAPITS moduleName shortName body))
        (fs.writeFile (cacheDir ++
          [cachedBaseName shortName (hashFn schema openAPITS moduleName shortName body)])
          (compile schema openAPITS))).readFile
        (cacheDir ++
          [cachedBaseName shortName (hashFn schema openAPITS moduleName shortName body)])
        = some (compile schema openAPITS) := by
      rw [pruneCache_readFile_other _ _ _ _ _ _
        (fun file _ hne he => hne (by simpa using (List.append_cancel_left he).symm))]
      exact FS.readFile_writeFile_self _ _ _
    rw [addCached_hit compile hashFn locked cacheDir moduleName shortName schema openAPITS
      _ p body (compile schema openAPITS) hp hb2 hhit2]
    exact ⟨rfl, rfl⟩

/-- Witness for `C5_cache_hit` at a concrete input: a file-backed schema and
a fresh cache; the second run returns the compiled contents and performs no
compile. -/
theorem C5_witness :
    (addCachedSchemaTemplate (fun _ _ => "OUT") (fun _ _ _ _ _ => "K") [] ["cache"]
        "open-fetch" "api" (SchemaSource.fileURL ["root", "openapi.json"]) ""
        (addCachedSchemaTemplate (fun _ _ => "OUT") (fun _ _ _ _ _ => "K") [] ["cache"]
          "open-fetch" "api" (SchemaSource.fileURL ["root", "openapi.json"]) ""
          [(["root", "openapi.json"], "SCHEMA")]).fs).contents = "OUT" ∧
    (addCachedSchemaTemplate (fun _ _ => "OUT") (fun _ _ _ _ _ => "K") [] ["cache"]
        "open-fetch" "api" (SchemaSource.fileURL ["root", "openapi.json"]) ""
        (addCachedSchemaTemplate (fun _ _ => "OUT") (fun _ _ _ _ _ => "K") [] ["cache"]
          "open-fetch" "api" (SchemaSource.fileURL ["root", "openapi.json"]) ""
          [(["root", "openapi.json"], "SCHEMA")]).fs).compiles = 0 := by
  have h := C5_cache_hit (fun _ _ => "OUT") (fun _ _ _ _ _ => "K") [] ["cache"]
    "open-fetch" "api" (SchemaSource.fileURL ["root", "openapi.json"]) ""
    [(["root", "openapi.json"], "SCHEMA")] ["root", "openapi.json"] rfl (by decide)
    (fun b hb => by
      have h1 := congrArg (fun l => l.head?) hb
      simp at h1)
  exact ⟨h.1.trans (by decide), h.2⟩

/-- C6.  After a compile-and-write (cache miss) for a client short name,
the new artifact is present under its fingerprint name; every other file in
the cache directory whose name starts with `shortName-` and whose deletion
does not fail is gone; when no deletion fails, the new artifact is the ONLY
live `shortName-` file; and regardless of deletion failures the call
completes normally, returning the compiled contents (failures are swallowed,
never propagated). -/
theorem C6_keep_newest_only
    (compile : SchemaSource → String → String)
    (hashFn : SchemaSource → String → String → String → String → String)
    (locked : List FsPath) (cacheDir : FsPath) (moduleName shortName : String)
    (schema : SchemaSource) (openAPITS : String) (fs : FS) (p : FsPath) (body : String)
    (hp : filePathOf schema = some p) (hb : fs.readFile p = some body)
    (hmiss : fs.readFile (cacheDir ++
      [cachedBaseName shortName (hashFn schema openAPITS moduleName shortName body)])
        = none) :
    (addCachedSchemaTemplate compile hashFn locked cacheDir moduleName shortName schema
        openAPITS fs).contents = compile schema openAPITS ∧
    (addCachedSchemaTemplate compile hashFn locked cacheDir moduleName shortName schema
        openAPITS fs).compiles = 1 ∧
    (addCachedSchemaTemplate compile hashFn locked cacheDir moduleName shortName schema
        openAPITS fs).fs.readFile (cacheDir ++
          [cachedBaseName shortName (hashFn schema openAPITS moduleName shortName body)])
      = some (compile schema openAPITS) ∧
    (∀ b, strStartsWith b (shortName ++ "-") = true →
      b ≠ cachedBaseName shortName (hashFn schema openAPITS moduleName shortName body) →
      cacheDir ++ [b] ∉ locked →
      (addCachedSchemaTemplate compile hashFn locked cacheDir moduleName shortName schema
        openAPITS fs).fs.readFile (cacheDir ++ [b]) = none) ∧
    (locked = [] → ∀ b, strStartsWith b (shortName ++ "-") = true →
      ((addCachedSchemaTemplate compile hashFn locked cacheDir moduleName shortName schema
        openAPITS fs).fs.readFile (cacheDir ++ [b])).isSome →
      b = cachedBaseName shortName (hashFn schema openAPITS moduleName shortName body)) := by
  rw [addCached_miss compile hashFn locked cacheDir moduleName shortName schema openAPITS
    fs p body hp hb hmiss]
  have hdel : ∀ b, strStartsWith b (shortName ++ "-") = true →
      b ≠ cachedBaseName shortName (hashFn schema openAPITS moduleName shortName body) →
      cacheDir ++ [b] ∉ locked →
      (pruneCache locked cacheDir shortName
        (cachedBaseName shortName (hashFn schema openAPITS moduleName shortName body))
        (fs.writeFile (cacheDir ++
          [cachedBaseName shortName (hashFn schema openAPITS moduleName shortName body)])
          (compile schema openAPITS))).readFile (cacheDir ++ [b]) = none := by
    intro b hpre hne hl
    cases hsb : (fs.writeFile (cacheDir ++
        [cachedBaseName shortName (hashFn schema openAPITS moduleName shortName body)])
        (compile schema openAPITS)).readFile (cacheDir ++ [b]) with
    | some c =>
      exact pruneCache_removes _ _ _ _ _ b
        (FS.mem_readdir_of_readFile _ _ _ (by rw [hsb]; rfl)) hpre hne hl
    | none =>
      exact pruneCache_readFile_none _ _ _ _ _ _ hsb
  refine ⟨rfl, rfl, ?_, hdel, ?_⟩
  · rw [pruneCache_readFile_other _ _ _ _ _ _
      (fun file _ hne he => hne (by simpa using (List.append_cancel_left he).symm))]
    exact FS.readFile_writeFile_self _ _ _
  · intro hlock b hpre hsome
    by_contra hne
    have hnone := hdel b hpre hne (by rw [hlock]; simp)
    rw [hnone] at hsome
    simp at hsome

/-- Witness for `C6_keep_newest_only` at a concrete input: one stale
deletable artifact is removed, one locked artifact survives a swallowed
deletion failure, the call still completes with the compiled contents and
the fresh artifact. -/
theorem C6_witness :
    (addCachedSchemaTemplate (fun _ _ => "OUT") (fun _ _ _ _ _ => "K")
        [["cache", "api-LOCKED.ts"]] ["cache"] "open-fetch" "api"
        (SchemaSource.fileURL ["root", "s.json"]) ""
        [(["root", "s.json"], "SCHEMA"), (["cache", "api-OLD.ts"], "old"),
          (["cache", "api-LOCKED.ts"], "stuck")]).contents = "OUT" ∧
    (addCachedSchemaTemplate (fun _ _ => "OUT") (fun _ _ _ _ _ => "K")
        [["cache", "api-LOCKED.ts"]] ["cache"] "open-fetch" "api"
        (SchemaSource.fileURL ["root", "s.json"]) ""
        [(["root", "s.json"], "SCHEMA"), (["cache", "api-OLD.ts"], "old"),
          (["cache", "api-LOCKED.ts"], "stuck")]).fs.readFile
      (["cache"] ++ ["api-K.ts"]) = some "OUT" ∧
    (addCachedSchemaTemplate (fun _ _ => "OUT") (fun _ _ _ _ _ => "K")
        [["cache", "api-LOCKED.ts"]] ["cache"] "open-fetch" "api"
        (SchemaSource.fileURL ["root", "s.json"]) ""
        [(["root", "s.json"], "SCHEMA"), (["cache", "api-OLD.ts"], "old"),
          (["cache", "api-LOCKED.ts"], "stuck")]).fs.readFile
      (["cache"] ++ ["api-OLD.ts"]) = none := by
  have h := C6_keep_newest_only (fun _ _ => "OUT") (fun _ _ _ _ _ => "K")
    [["cache", "api-LOCKED.ts"]] ["cache"] "open-fetch" "api"
    (SchemaSource.fileURL ["root", "s.json"]) ""
    [(["root", "s.json"], "SCHEMA"), (["cache", "api-OLD.ts"], "old"),
      (["cache", "api-LOCKED.ts"], "stuck")]
    ["root", "s.json"] "SCHEMA" rfl (by decide) (by decide)
  exact ⟨h.1, h.2.2.1, h.2.2.2.1 "api-OLD.ts" (by decide) (by decide) (by decide)⟩

/-! ## Schema resolution (src/module.ts, lines 60-113)

For each configured client name, lines 84-101 determine the schema source:
keep an explicit non-string schema as-is; for an explicit string, pass it
through exactly when `isValidUrl` accepts it, else convert to a `file://`
URL under the layer root; for an absent (or falsy, i.e. empty-string)
schema, probe `{schemasDir}/{name}/openapi.{json,yaml,yml}` in that order;
if the `schema` variable is still falsy afterwards, throw
`Could not find OpenAPI schema for "<name>"`.  `isValidUrl` (an URL-parse
success test) and `existsSync` are opaque parameters.  Path joining is
modelled as segment concatenation.
-/

/-- The `schema` field configured for a client in `options.clients`. -/
inductive ConfigSchema where
  | missing
  | strVal (s : String)
  | objVal (d : String)
  deriving DecidableEq

/-- Lines 86-95: probe the three conventional extensions in order and take
the first existing file. -/
def probeSchemaDir (existsSync : FsPath → Bool) (schemasDir : FsPath)
    (name : String) : Option FsPath :=
  if existsSync (schemasDir ++ [name, "openapi.json"]) then
    some (schemasDir ++ [name, "openapi.json"])
  else if existsSync (schemasDir ++ [name, "openapi.yaml"]) then
    some (schemasDir ++ [name, "openapi.yaml"])
  else if existsSync (schemasDir ++ [name, "openapi.yml"]) then
    some (schemasDir ++ [name, "openapi.yml"])
  else none

/-- Lines 84-101 for one client on one layer: determine the schema source or
throw.  An empty string is falsy, so `if (!config.schema)` sends it to the
probe, and if the probe fails the still-falsy `schema` triggers the throw. -/
def resolveClientSchema (isValidUrl : String → Bool) (existsSync : FsPath → Bool)
    (schemasDir rootDir : FsPath) (name : String) (cfg : ConfigSchema) :
    Except String SchemaSource :=
  let err := "Could not find OpenAPI schema for \"" ++ name ++ "\""
  match cfg with
  | .objVal d => .ok (.inlineDoc d)
  | .missing =>
    match probeSchemaDir existsSync schemasDir name with
    | some p => .ok (.fileURL p)
    | none => .error err
  | .strVal s =>
    if s = "" then
      match probeSchemaDir existsSync schemasDir name with
      | some p => .ok (.fileURL p)
      | none => .error err
    else if isValidUrl s then .ok (.remoteStr s)
    else .ok (.fileURL (rootDir ++ [s]))

/-- C7 (amended).  Resolution prefers an explicit schema value: a NON-EMPTY
string passes through as-is exactly when it parses as a URL, otherwise it
becomes a file reference under the layer root; a non-string value is kept
as-is.  Without a (truthy) explicit value, the conventional directory is
probed for `openapi.json`, `openapi.yaml`, `openapi.yml` in that order,
taking the first existing file; and if that also fails, resolution throws an
error whose message contains the offending client name — no client is
silently defaulted. -/
theorem C7_schema_resolution_amended (isValidUrl : String → Bool)
    (existsSync : FsPath → Bool) (schemasDir rootDir : FsPath) (name : String)
    (cfg : ConfigSchema) :
    (∀ s, cfg = .strVal s → s ≠ "" →
      resolveClientSchema isValidUrl existsSync schemasDir rootDir name cfg
        = .ok (if isValidUrl s then .remoteStr s else .fileURL (rootDir ++ [s]))) ∧
    (∀ d, cfg = .objVal d →
      resolveClientSchema isValidUrl existsSync schemasDir rootDir name cfg
        = .ok (.inlineDoc d)) ∧
    (cfg = .missing ∨ cfg = .strVal "" →
      (existsSync (schemasDir ++ [name, "openapi.json"]) = true →
        resolveClientSchema isValidUrl existsSync schemasDir rootDir name cfg
          = .ok (.fileURL (schemasDir ++ [name, "openapi.json"]))) ∧
      (existsSync (schemasDir ++ [name, "openapi.json"]) = false →
        existsSync (schemasDir ++ [name, "openapi.yaml"]) = true →
        resolveClientSchema isValidUrl existsSync schemasDir rootDir name cfg
          = .ok (.fileURL (schemasDir ++ [name, "openapi.yaml"]))) ∧
      (existsSync (schemasDir ++ [name, "openapi.json"]) = false →
        existsSync (schemasDir ++ [name, "openapi.yaml"]) = false →
        existsSync (schemasDir ++ [name, "openapi.yml"]) = true →
        resolveClientSchema isValidUrl existsSync schemasDir rootDir name cfg
          = .ok (.fileURL (schemasDir ++ [name, "openapi.yml"]))) ∧
      (existsSync (schemasDir ++ [name, "openapi.json"]) = false →
        existsSync (schemasDir ++ [name, "openapi.yaml"]) = false →
        existsSync (schemasDir ++ [name, "openapi.yml"]) = false →
        resolveClientSchema isValidUrl existsSync schemasDir rootDir name cfg
          = .error ("Could not find OpenAPI schema for \"" ++ name ++ "\"")
        ∧ name.data <:+:
            ("Could not find OpenAPI schema for \"" ++ name ++ "\"").data)) := by
  refine ⟨?_, ?_, ?_⟩
  · intro s hs hne
    subst hs
    simp only [resolveClientSchema, if_neg hne]
    by_cases hu : isValidUrl s = true
    · rw [if_pos hu, if_pos hu]
    · rw [if_neg hu, if_neg hu]
  · intro d hd
    subst hd
    rfl
  · intro hmiss
    have hcase : ∀ r : Except String SchemaSource,
        (match probeSchemaDir existsSync schemasDir name with
          | some p => Except.ok (SchemaSource.fileURL p)
          | none => Except.error ("Could not find OpenAPI schema for \"" ++ name ++ "\"")) = r →
        resolveClientSchema isValidUrl existsSync schemasDir rootDir name cfg = r := by
      intro r hr
      rcases hmiss with h | h <;> subst h
      · simpa [resolveClientSchema] using hr
      · simpa [resolveClientSchema] using hr
    refine ⟨?_, ?_, ?_, ?_⟩
    · intro h1
      exact hcase _ (by simp [probeSchemaDir, h1])
    · intro h1 h2
      exact hcase _ (by simp [probeSchemaDir, h1, h2])
    · intro h1 h2 h3
      exact hcase _ (by simp [probeSchemaDir, h1, h2, h3])
    · intro h1 h2 h3
      refine ⟨hcase _ (by simp [probeSchemaDir, h1, h2, h3]), ?_⟩
      refine ⟨("Could not find OpenAPI schema for \"").data, ("\"").data, ?_⟩
      rfl

/-- C7 counterexample: an explicit empty-string schema is falsy, so the code
treats it as absent — with no conventional file it throws, where the claim
("a string ... otherwise is converted to a file reference relative to the
layer root") predicts `file://{rootDir}/` pass-through resolution. -/
theorem C7_counterexample :
    resolveClientSchema (fun _ => false) (fun _ => false) ["openapi"] ["root"] "api"
      (.strVal "")
      = .error "Could not find OpenAPI schema for \"api\"" ∧
    ∀ v, resolveClientSchema (fun _ => false) (fun _ => false) ["openapi"] ["root"] "api"
      (.strVal "") ≠ .ok v := by
  constructor
  · rfl
  · intro v h
    rw [show resolveClientSchema (fun _ => false) (fun _ => false) ["openapi"] ["root"]
      "api" (.strVal "") = .error "Could not find OpenAPI schema for \"api\"" from rfl] at h
    exact Except.noConfusion h

/-- Witness for `C7_schema_resolution_amended` at concrete inputs. -/
theorem C7_witness :
    resolveClientSchema (fun _ => false) (fun _ => false) ["openapi"] ["root"] "pets"
      (.strVal "schemas/pets.yaml")
      = .ok (.fileURL (["root"] ++ ["schemas/pets.yaml"])) ∧
    resolveClientSchema (fun _ => true) (fun _ => false) ["openapi"] ["root"] "pets"
      (.strVal "https://example.com/openapi.json")
      = .ok (.remoteStr "https://example.com/openapi.json") ∧
    resolveClientSchema (fun _ => false) (fun p => p = ["openapi", "pets", "openapi.yaml"])
      ["openapi"] ["root"] "pets" .missing
      = .ok (.fileURL (["openapi"] ++ ["pets", "openapi.yaml"])) ∧
    resolveClientSchema (fun _ => false) (fun _ => false) ["openapi"] ["root"] "pets"
      .missing
      = .error ("Could not find OpenAPI schema for \"" ++ "pets" ++ "\"") := by
  refine ⟨?_, ?_, ?_, ?_⟩
  · exact ((C7_schema_resolution_amended (fun _ => false) (fun _ => false) ["openapi"]
      ["root"] "pets" (.strVal "schemas/pets.yaml")).1 _ rfl (by decide)).trans (by rfl)
  · exact ((C7_schema_resolution_amended (fun _ => true) (fun _ => false) ["openapi"]
      ["root"] "pets" (.strVal "https://example.com/openapi.json")).1 _ rfl
        (by decide)).trans (by rfl)
  · exact ((C7_schema_resolution_amended (fun _ => false)
      (fun p => p = ["openapi", "pets", "openapi.yaml"]) ["openapi"] ["root"] "pets"
      .missing).2.2 (Or.inl rfl)).2.1 (by decide) (by decide)
  · exact (((C7_schema_resolution_amended (fun _ => false) (fun _ => false) ["openapi"]
      ["root"] "pets" .missing).2.2 (Or.inl rfl)).2.2.2 rfl rfl rfl).1

/-! ## Layered resolution (src/module.ts, lines 65-113)

The outer loop walks `nuxt.options._layers` in order; for each layer,
`layerClients` filters `Object.entries(options.clients)` down to the names
whose config is (truthily) present in that layer's own `openFetch.clients`;
a name already resolved, or whose `options.clients` entry is falsy, is
skipped; otherwise the schema is resolved against the layer's directories
(a throw aborts the whole loop) and the entry is appended to `schemas`.
-/

/-- One configuration layer: the layer root directory and the client names
present (truthily) in the layer's `openFetch.clients`. -/
structure Layer where
  rootDir : FsPath
  clients : List String

/-- Lines 79-112 for one `(name, config)` entry of
`Object.entries(options.clients)` on a given layer: skip when the name is
already resolved or the entry's config is falsy; otherwise resolve its
schema (a throw aborts the pipeline) and append. -/
def stepName (isValidUrl : String → Bool) (existsSync : FsPath → Bool) (L : Layer)
    (acc : List (String × SchemaSource)) (nc : String × Option ConfigSchema) :
    Except String (List (String × SchemaSource)) :=
  if acc.any (fun item => item.1 = nc.1) then .ok acc
  else
    match nc.2 with
    | none => .ok acc
    | some cfg =>
      match resolveClientSchema isValidUrl existsSync (L.rootDir ++ ["openapi"])
          L.rootDir nc.1 cfg with
      | .ok src => .ok (acc ++ [(nc.1, src)])
      | .error e => .error e

/-- Lines 70-113 for one layer: process the layer-gated entries in order. -/
def stepLayer (isValidUrl : String → Bool) (existsSync : FsPath → Bool)
    (clients : List (String × Option ConfigSchema))
    (acc : List (String × SchemaSource)) (L : Layer) :
    Except String (List (String × SchemaSource)) :=
  (clients.filter (fun nc => decide (nc.1 ∈ L.clients))).foldlM
    (stepName isValidUrl existsSync L) acc

/-- The full resolution loop over the ordered layer list. -/
def resolveAll (isValidUrl : String → Bool) (existsSync : FsPath → Bool)
    (clients : List (String × Option ConfigSchema)) (layers : List Layer) :
    Except String (List (String × SchemaSource)) :=
  layers.foldlM (stepLayer isValidUrl existsSync clients) []

/-- Characterization of the per-layer fold: the accumulator is extended by
entries for names not previously resolved, each resolved on THIS layer from
some configured entry; name-uniqueness is preserved; and every gated entry
with truthy config ends up resolved. -/
theorem stepName_fold_spec (isValidUrl : String → Bool) (existsSync : FsPath → Bool)
    (L : Layer) :
    ∀ (l : List (String × Option ConfigSchema)) (acc res : List (String × SchemaSource)),
      l.foldlM (stepName isValidUrl existsSync L) acc = Except.ok res →
      (∃ ext, res = acc ++ ext ∧
        ∀ ns ∈ ext, ns.1 ∉ acc.map Prod.fst ∧
          ∃ cfg, (ns.1, some cfg) ∈ l ∧
            resolveClientSchema isValidUrl existsSync (L.rootDir ++ ["openapi"])
              L.rootDir ns.1 cfg = Except.ok ns.2) ∧
      ((acc.map Prod.fst).Nodup → (res.map Prod.fst).Nodup) ∧
      (∀ n cfg, (n, some cfg) ∈ l → n ∈ res.map Prod.fst) := by
  intro l
  induction l with
  | nil =>
    intro acc res h
    rw [List.foldlM_nil] at h
    obtain rfl := Except.ok.inj h
    refine ⟨⟨[], by simp, by simp⟩, fun hn => hn, by simp⟩
  | cons hd tl ih =>
    intro acc res h
    rw [List.foldlM_cons] at h
    cases hstep : stepName isValidUrl existsSync L acc hd with
    | error e =>
      rw [hstep, show ((Except.error e : Except String (List (String × SchemaSource)))
        >>= fun x => tl.foldlM (stepName isValidUrl existsSync L) x)
          = Except.error e from rfl] at h
      exact absurd h (fun hc => Except.noConfusion hc)
    | ok acc1 =>
      rw [hstep, show ((Except.ok acc1 : Except String (List (String × SchemaSource)))
        >>= fun x => tl.foldlM (stepName isValidUrl existsSync L) x)
          = tl.foldlM (stepName isValidUrl existsSync L) acc1 from rfl] at h
      obtain ⟨⟨ext1, hres, hprops⟩, hnd, hcompl⟩ := ih acc1 res h
      unfold stepName at hstep
      by_cases hany : acc.any (fun item => item.1 = hd.1) = true
      · rw [if_pos hany] at hstep
        obtain rfl := Except.ok.inj hstep
        refine ⟨⟨ext1, hres, fun ns hns => ?_⟩, hnd, fun n cfg hmem => ?_⟩
        · obtain ⟨hnotin, cfg, hmem', hres'⟩ := hprops ns hns
          exact ⟨hnotin, cfg, List.mem_cons_of_mem hd hmem', hres'⟩
        · rcases List.mem_cons.mp hmem with h1 | h1
          · have hn : hd.1 = n := by rw [← h1]
            obtain ⟨item, hitem, hieq⟩ := List.any_eq_true.mp hany
            have hieq' : item.1 = hd.1 := by simpa using hieq
            rw [hres, List.map_append]
            exact List.mem_append_left _
              (List.mem_map.mpr ⟨item, hitem, by rw [hieq', hn]⟩)
          · exact hcompl n cfg h1
      · rw [if_neg hany] at hstep
        have hnotin_acc : hd.1 ∉ acc.map Prod.fst := by
          intro hmem2
          obtain ⟨item, hitem, hieq⟩ := List.mem_map.mp hmem2
          exact hany (List.any_eq_true.mpr ⟨item, hitem, by simp [hieq]⟩)
        cases hcfg : hd.2 with
        | none =>
          rw [hcfg] at hstep
          obtain rfl := Except.ok.inj hstep
          refine ⟨⟨ext1, hres, fun ns hns => ?_⟩, hnd, fun n cfg hmem => ?_⟩
          · obtain ⟨hnotin, cfg, hmem', hres'⟩ := hprops ns hns
            exact ⟨hnotin, cfg, List.mem_cons_of_mem hd hmem', hres'⟩
          · rcases List.mem_cons.mp hmem with h1 | h1
            · have : hd.2 = some cfg := by rw [← h1]
              rw [hcfg] at this
              exact absurd this (fun hc => Option.noConfusion hc)
            · exact hcompl n cfg h1
        | some cfg0 =>
          rw [hcfg] at hstep
          have hstep2 : (match resolveClientSchema isValidUrl existsSync
              (L.rootDir ++ ["openapi"]) L.rootDir hd.1 cfg0 with
            | Except.ok src => Except.ok (acc ++ [(hd.1, src)])
            | Except.error e => (Except.error e : Except String (List (String × SchemaSource))))
              = Except.ok acc1 := hstep
          clear hstep
          cases hres0 : resolveClientSchema isValidUrl existsSync
              (L.rootDir ++ ["openapi"]) L.rootDir hd.1 cfg0 with
          | error e =>
            rw [hres0] at hstep2
            exact absurd hstep2 (fun hc => Except.noConfusion hc)
          | ok src =>
            rw [hres0] at hstep2
            obtain rfl := Except.ok.inj hstep2
            refine ⟨⟨(hd.1, src) :: ext1, ?_, fun ns hns => ?_⟩, ?_, fun n cfg hmem => ?_⟩
            · rw [hres]
              simp
            · rcases List.mem_cons.mp hns with h1 | h1
              · subst h1
                refine ⟨hnotin_acc, cfg0, ?_, hres0⟩
                have hh : (hd.1, some cfg0) = hd := by
                  rw [← hcfg]
                rw [hh]
                exact List.mem_cons_self hd tl
              · obtain ⟨hnotin, cfg', hmem', hres'⟩ := hprops ns h1
                refine ⟨fun hmem2 => hnotin ?_, cfg', List.mem_cons_of_mem hd hmem', hres'⟩
                rw [List.map_append]
                exact List.mem_append_left _ hmem2
            · intro hnda
              apply hnd
              rw [List.map_append]
              refine List.Nodup.append hnda (by simp) ?_
              intro a ha hb
              have hb' : a = hd.1 := by simpa using hb
              subst hb'
              exact hnotin_acc ha
            · rcases List.mem_cons.mp hmem with h1 | h1
              · have hn : hd.1 = n := by rw [← h1]
                rw [hres, List.map_append]
                refine List.mem_append_left _ ?_
                rw [List.map_append]
                refine List.mem_append_right _ ?_
                simp [hn]
              · exact hcompl n cfg h1

/-- Characterization of the layer fold: every produced entry's schema source
is the one determined at the FIRST layer (in iteration order) whose
`openFetch.clients` gates that name, and name-uniqueness is preserved. -/
theorem stepLayer_fold_spec (isValidUrl : String → Bool) (existsSync : FsPath → Bool)
    (clients : List (String × Option ConfigSchema)) :
    ∀ (ls : List Layer) (acc res : List (String × SchemaSource)),
      ls.foldlM (stepLayer isValidUrl existsSync clients) acc = Except.ok res →
      (∃ ext, res = acc ++ ext ∧
        ∀ ns ∈ ext, ns.1 ∉ acc.map Prod.fst ∧
          ∃ L, ls.find? (fun l => decide (ns.1 ∈ l.clients)) = some L ∧
            ∃ cfg, (ns.1, some cfg) ∈ clients ∧
              resolveClientSchema isValidUrl existsSync (L.rootDir ++ ["openapi"])
                L.rootDir ns.1 cfg = Except.ok ns.2) ∧
      ((acc.map Prod.fst).Nodup → (res.map Prod.fst).Nodup) := by
  intro ls
  induction ls with
  | nil =>
    intro acc res h
    rw [List.foldlM_nil] at h
    obtain rfl := Except.ok.inj h
    exact ⟨⟨[], by simp, by simp⟩, fun hn => hn⟩
  | cons L0 rest ih =>
    intro acc res h
    rw [List.foldlM_cons] at h
    cases hstep : stepLayer isValidUrl existsSync clients acc L0 with
    | error e =>
      rw [hstep, show ((Except.error e : Except String (List (String × SchemaSource)))
        >>= fun x => rest.foldlM (stepLayer isValidUrl existsSync clients) x)
          = Except.error e from rfl] at h
      exact absurd h (fun hc => Except.noConfusion hc)
    | ok acc1 =>
      rw [hstep, show ((Except.ok acc1 : Except String (List (String × SchemaSource)))
        >>= fun x => rest.foldlM (stepLayer isValidUrl existsSync clients) x)
          = rest.foldlM (stepLayer isValidUrl existsSync clients) acc1 from rfl] at h
      obtain ⟨⟨ext1, hres1, hprops1⟩, hnd1, hcompl1⟩ :=
        stepName_fold_spec isValidUrl existsSync L0 _ acc acc1 hstep
      obtain ⟨⟨ext2, hres2, hprops2⟩, hnd2⟩ := ih acc1 res h
      refine ⟨⟨ext1 ++ ext2, ?_, fun ns hns => ?_⟩, fun hnda => hnd2 (hnd1 hnda)⟩
      · rw [hres2, hres1, List.append_assoc]
      · rcases List.mem_append.mp hns with h1 | h1
        · -- resolved on the first layer L0
          obtain ⟨hnotin, cfg, hmem', hres'⟩ := hprops1 ns h1
          have hmemc := List.mem_filter.mp hmem'
          have hgate : ns.1 ∈ L0.clients := by simpa using hmemc.2
          refine ⟨hnotin, L0, ?_, cfg, hmemc.1, hres'⟩
          exact List.find?_cons_of_pos _ (by simpa using hgate)
        · -- resolved on a later layer; L0 cannot gate the name
          obtain ⟨hnotin1, Lx, hfind, cfg, hmemc, hres'⟩ := hprops2 ns h1
          have hnotin0 : ns.1 ∉ acc.map Prod.fst := by
            intro hmem2
            apply hnotin1
            rw [hres1, List.map_append]
            exact List.mem_append_left _ hmem2
          have hnogate : ns.1 ∉ L0.clients := by
            intro hgate
            apply hnotin1
            exact hcompl1 ns.1 cfg (List.mem_filter.mpr ⟨hmemc, by simpa using hgate⟩)
          refine ⟨hnotin0, Lx, ?_, cfg, hmemc, hres'⟩
          rw [List.find?_cons_of_neg _ (by simpa using hnogate)]
          exact hfind

/-- C8.  When the layered resolution loop succeeds, the resulting schema
list contains at most one entry per client name, and each entry's source is
the one determined at the first layer (in iteration order) that gates the
name — configuration of the same name in later layers is ignored. -/
theorem C8_first_layer_wins (isValidUrl : String → Bool) (existsSync : FsPath → Bool)
    (clients : List (String × Option ConfigSchema)) (layers : List Layer)
    (res : List (String × SchemaSource))
    (hres : resolveAll isValidUrl existsSync clients layers = Except.ok res) :
    (res.map Prod.fst).Nodup ∧
    ∀ ns ∈ res, ∃ L, layers.find? (fun l => decide (ns.1 ∈ l.clients)) = some L ∧
      ∃ cfg, (ns.1, some cfg) ∈ clients ∧
        resolveClientSchema isValidUrl existsSync (L.rootDir ++ ["openapi"])
          L.rootDir ns.1 cfg = Except.ok ns.2 := by
  obtain ⟨⟨ext, hext, hprops⟩, hnd⟩ :=
    stepLayer_fold_spec isValidUrl existsSync clients layers [] res hres
  refine ⟨hnd (by simp), fun ns hns => ?_⟩
  have hns' : ns ∈ ext := by
    rw [hext] at hns
    simpa using hns
  obtain ⟨_, L, hfind, cfg, hmem, hres'⟩ := hprops ns hns'
  exact ⟨L, hfind, cfg, hmem, hres'⟩

/-- Witness for `C8_first_layer_wins`: two layers both gating `pets`; the
resolved source is the outer (first) layer's, and the list has one entry. -/
theorem C8_witness :
    resolveAll (fun _ => false) (fun p => p.take 1 = ["outer"]) 
      [("pets", some ConfigSchema.missing)]
      [⟨["outer"], ["pets"]⟩, ⟨["inner"], ["pets"]⟩]
      = Except.ok [("pets", SchemaSource.fileURL ["outer", "openapi", "pets", "openapi.json"])] ∧
    ((([("pets", SchemaSource.fileURL ["outer", "openapi", "pets", "openapi.json"])] :
      List (String × SchemaSource)).map Prod.fst).Nodup ∧
    ∀ ns ∈ ([("pets", SchemaSource.fileURL ["outer", "openapi", "pets", "openapi.json"])] :
        List (String × SchemaSource)),
      ∃ L, [(⟨["outer"], ["pets"]⟩ : Layer), ⟨["inner"], ["pets"]⟩].find?
          (fun l => decide (ns.1 ∈ l.clients)) = some L ∧
        ∃ cfg, (ns.1, some cfg) ∈ [("pets", some ConfigSchema.missing)] ∧
          resolveClientSchema (fun _ => false) (fun p => p.take 1 = ["outer"])
            (L.rootDir ++ ["openapi"]) L.rootDir ns.1 cfg = Except.ok ns.2) := by
  constructor
  · rfl
  · exact C8_first_layer_wins (fun _ => false) (fun p => p.take 1 = ["outer"])
      [("pets", some ConfigSchema.missing)]
      [⟨["outer"], ["pets"]⟩, ⟨["inner"], ["pets"]⟩]
      [("pets", SchemaSource.fileURL ["outer", "openapi", "pets", "openapi.json"])]
      rfl

/-! ## The reactive composable dedup key (runtime/useFetch.ts, lines 256-282)

`createAutoKey(client, url, options)` serializes
`{url, method, path, query, body}` with
`JSON.stringify(value, (_, v) => toValue(v))` — every reactive ref (or
getter) is unwrapped to its current plain value during serialization — and
returns the dollar sign, the client name, a dash and `digest` of that JSON
string.  `createUseOpenFetch` uses `options.key ?? createAutoKey(...)`.

The model: reactive option values `RVal` are JSON data with `undefined` and
a `ref` wrapper (`toValue` unwraps refs and calls getters; Vue never nests
refs, so unwrapping is modelled as reaching the first non-ref node);
resolved plain values are `JVal`.  Numbers are modelled as integers in the
float-exact range, where the JS number-to-string is plain decimal.  The
external `ohash.digest` is an opaque function parameter.
-/

mutual
/-- Resolved plain JSON values (objects keep insertion order). -/
inductive JVal where
  | null
  | bool (b : Bool)
  | num (n : Int)
  | str (s : String)
  | arr (elems : JArr)
  | obj (fields : JObj)
  deriving DecidableEq
/-- JSON array spines. -/
inductive JArr where
  | nil
  | cons (hd : JVal) (tl : JArr)
  deriving DecidableEq
/-- JSON object spines (key, value, rest), in insertion order. -/
inductive JObj where
  | nil
  | cons (key : String) (val : JVal) (tl : JObj)
  deriving DecidableEq
end

mutual
/-- Reactive option values: JSON data plus `undefined` and reactive
refs/getters. -/
inductive RVal where
  | undef
  | null
  | bool (b : Bool)
  | num (n : Int)
  | str (s : String)
  | arr (elems : RArr)
  | obj (fields : RObj)
  | ref (v : RVal)
/-- Reactive array spines. -/
inductive RArr where
  | nil
  | cons (hd : RVal) (tl : RArr)
/-- Reactive object spines. -/
inductive RObj where
  | nil
  | cons (key : String) (val : RVal) (tl : RObj)
end

/-- Lower-case hexadecimal digit character for a value below 16. -/
def hexDigitLower : Nat → Char
  | 0 => '0'
  | 1 => '1'
  | 2 => '2'
  | 3 => '3'
  | 4 => '4'
  | 5 => '5'
  | 6 => '6'
  | 7 => '7'
  | 8 => '8'
  | 9 => '9'
  | 10 => 'a'
  | 11 => 'b'
  | 12 => 'c'
  | 13 => 'd'
  | 14 => 'e'
  | _ => 'f'

/-- Decimal digit character for a value below 10. -/
def digitChar : Nat → Char
  | 0 => '0'
  | 1 => '1'
  | 2 => '2'
  | 3 => '3'
  | 4 => '4'
  | 5 => '5'
  | 6 => '6'
  | 7 => '7'
  | 8 => '8'
  | _ => '9'

/-- Fuelled most-significant-first decimal digits (the fuel is structural
so the definition evaluates by kernel reduction; `natDec` supplies enough
fuel). -/
def natDecAux : Nat → Nat → Str
  | 0, _ => []
  | fuel + 1, n =>
    if n < 10 then [digitChar n] else natDecAux fuel (n / 10) ++ [digitChar (n % 10)]

/-- Decimal representation of a natural number. -/
def natDec (n : Nat) : Str := natDecAux (n + 1) n

/-- JS number-to-string restricted to (float-exact) integers. -/
def intRepr (n : Int) : Str := if n < 0 then '-' :: natDec n.natAbs else natDec n.toNat

/-- One character of JSON string escaping exactly as `JSON.stringify`
performs it: quote, backslash and the named control escapes, `\u00xx` for
the remaining control characters, everything else verbatim. -/
def escapeChar (c : Char) : Str :=
  if c = '"' then ['\\', '"']
  else if c = '\\' then ['\\', '\\']
  else if c.toNat = 8 then ['\\', 'b']
  else if c.toNat = 12 then ['\\', 'f']
  else if c.toNat = 10 then ['\\', 'n']
  else if c.toNat = 13 then ['\\', 'r']
  else if c.toNat = 9 then ['\\', 't']
  else if c.toNat < 32 then
    ['\\', 'u', '0', '0', hexDigitLower (c.toNat / 16), hexDigitLower (c.toNat % 16)]
  else [c]

/-- JSON string escaping, character-wise. -/
def escapeStr (s : Str) : Str := s.flatMap escapeChar

/-- A quoted JSON string literal. -/
def jquote (s : String) : Str := '"' :: escapeStr s.data ++ ['"']

/-- Comma-join of serialized members. -/
def joinComma : List Str → Str
  | [] => []
  | [x] => x
  | x :: xs => x ++ ',' :: joinComma xs

mutual
/-- `JSON.stringify` (no indentation) of a plain JSON value. -/
def jstr : JVal → Str
  | .null => "null".data
  | .bool true => "true".data
  | .bool false => "false".data
  | .num n => intRepr n
  | .str s => jquote s
  | .arr l => '[' :: joinComma (jstrArrM l) ++ [']']
  | .obj fs => '{' :: joinComma (jstrObjM fs) ++ ['}']
/-- Serialized array members. -/
def jstrArrM : JArr → List Str
  | .nil => []
  | .cons h t => jstr h :: jstrArrM t
/-- Serialized object members (`"key":value`). -/
def jstrObjM : JObj → List Str
  | .nil => []
  | .cons k v t => (jquote k ++ ':' :: jstr v) :: jstrObjM t
end

mutual
/-- The resolved plain value of a reactive value: every ref unwrapped to
its current value; `none` is `undefined`.  This is the claim's notion of
the "resolved request shape". -/
def resolve : RVal → Option JVal
  | .undef => none
  | .null => some .null
  | .bool b => some (.bool b)
  | .num n => some (.num n)
  | .str s => some (.str s)
  | .ref v => resolve v
  | .arr l => some (.arr (resolveArr l))
  | .obj fs => some (.obj (resolveObj fs))
/-- Array members resolve element-wise; `undefined` elements become `null`
(as `JSON.stringify` renders them). -/
def resolveArr : RArr → JArr
  | .nil => .nil
  | .cons h t => .cons ((resolve h).getD .null) (resolveArr t)
/-- Object members resolve field-wise; `undefined`-valued fields are
dropped (as `JSON.stringify` does). -/
def resolveObj : RObj → JObj
  | .nil => .nil
  | .cons k v t =>
    match resolve v with
    | some j => .cons k j (resolveObj t)
    | none => resolveObj t
end

mutual
/-- `JSON.stringify(value, (_, v) => toValue(v))` on a reactive value,
straight from the runtime: each node is unwrapped by `toValue`, then
serialized; in arrays `undefined` members render as `null`, in objects they
are dropped; a whole-value `undefined` yields no string (`none`). -/
def swr : RVal → Option Str
  | .undef => none
  | .null => some "null".data
  | .bool true => some "true".data
  | .bool false => some "false".data
  | .num n => some (intRepr n)
  | .str s => some (jquote s)
  | .ref v => swr v
  | .arr l => some ('[' :: joinComma (swrArrM l) ++ [']'])
  | .obj fs => some ('{' :: joinComma (swrObjM fs) ++ ['}'])
/-- Serialized reactive array members. -/
def swrArrM : RArr → List Str
  | .nil => []
  | .cons h t => ((swr h).getD "null".data) :: swrArrM t
/-- Serialized reactive object members. -/
def swrObjM : RObj → List Str
  | .nil => []
  | .cons k v t =>
    match swr v with
    | some j => (jquote k ++ ':' :: j) :: swrObjM t
    | none => swrObjM t
end

mutual
/-- Serializing a reactive value is serializing its resolved value: the
replacer-based `JSON.stringify` factors through `resolve`. -/
theorem swr_eq_resolve : ∀ v : RVal, swr v = (resolve v).map jstr
  | .undef => rfl
  | .null => rfl
  | .bool b => by cases b <;> rfl
  | .num n => rfl
  | .str s => rfl
  | .ref v => swr_eq_resolve v
  | .arr l => by
    have h := swrArrM_eq l
    show some ('[' :: joinComma (swrArrM l) ++ [']']) = _
    rw [h]
    rfl
  | .obj fs => by
    have h := swrObjM_eq fs
    show some ('{' :: joinComma (swrObjM fs) ++ ['}']) = _
    rw [h]
    rfl
/-- Member-wise version of `swr_eq_resolve` for arrays. -/
theorem swrArrM_eq : ∀ l : RArr, swrArrM l = jstrArrM (resolveArr l)
  | .nil => rfl
  | .cons h t => by
    have h1 := swr_eq_resolve h
    have h2 := swrArrM_eq t
    show ((swr h).getD "null".data) :: swrArrM t
      = jstr ((resolve h).getD .null) :: jstrArrM (resolveArr t)
    rw [h1, h2]
    cases resolve h <;> rfl
/-- Member-wise version of `swr_eq_resolve` for objects. -/
theorem swrObjM_eq : ∀ fs : RObj, swrObjM fs = jstrObjM (resolveObj fs)
  | .nil => rfl
  | .cons k v t => by
    have h1 := swr_eq_resolve v
    have h2 := swrObjM_eq t
    cases hr : resolve v with
    | none =>
      rw [hr] at h1
      show (match swr v with
        | some j => (jquote k ++ ':' :: j) :: swrObjM t
        | none => swrObjM t) = jstrObjM (resolveObj (.cons k v t))
      rw [h1, show resolveObj (.cons k v t)
        = (match resolve v with
            | some j => JObj.cons k j (resolveObj t)
            | none => resolveObj t) from rfl, hr]
      exact h2
    | some j =>
      rw [hr] at h1
      show (match swr v with
        | some j => (jquote k ++ ':' :: j) :: swrObjM t
        | none => swrObjM t) = jstrObjM (resolveObj (.cons k v t))
      rw [h1, show resolveObj (.cons k v t)
        = (match resolve v with
            | some j => JObj.cons k j (resolveObj t)
            | none => resolveObj t) from rfl, hr]
      show (jquote k ++ ':' :: jstr j) :: swrObjM t = jstrObjM (JObj.cons k j (resolveObj t))
      rw [h2]
      rfl
end

/-- The five-field request-shape object `{url, method, path, query, body}`
built at lines 270-276 (an absent option is an `undefined` field; the `url`
argument may be a plain string or a getter, i.e. a ref). -/
def requestShape (url method path query body : RVal) : RVal :=
  .obj (.cons "url" url (.cons "method" method (.cons "path" path
    (.cons "query" query (.cons "body" body .nil)))))

/-- `createAutoKey` (lines 269-282): the dollar sign, the client name, a
dash and the digest of the replacer-serialized request shape. -/
def createAutoKey (digest : Str → String) (client : String)
    (url method path query body : RVal) : String :=
  "$" ++ client ++ "-" ++ digest ((swr (requestShape url method path query body)).getD [])

/-- Line 262: `options.key ?? createAutoKey(client.toString(), url, options)`
(`none` models a nullish `key` option). -/
def useOpenFetchKey (digest : Str → String) (client : String) (key : Option String)
    (url method path query body : RVal) : String :=
  match key with
  | some k => k
  | none => createAutoKey digest client url method path query body

/-- The resolved request shape: the claim's comparison object, with every
reactive reference unwrapped to its current plain value. -/
def resolveShape (url method path query body : RVal) : JVal :=
  (resolve (requestShape url method path query body)).getD .null

/-- The auto key digests exactly the serialization of the RESOLVED shape. -/
theorem createAutoKey_eq (digest : Str → String) (client : String)
    (url method path query body : RVal) :
    createAutoKey digest client url method path query body
      = "$" ++ client ++ "-"
        ++ digest (jstr (resolveShape url method path query body)) := by
  unfold createAutoKey resolveShape requestShape
  rw [swr_eq_resolve]
  rfl

/-- Concatenation of strings in terms of their character lists. -/
theorem strData_append (a b : String) : (a ++ b).data = a.data ++ b.data := rfl

/-- Strings with equal character lists are equal. -/
theorem strData_inj (a b : String) (h : a.data = b.data) : a = b := by
  cases a
  cases b
  exact congrArg String.mk h

/-- Cancellation on the right for string concatenation. -/
theorem str_append_cancel_right (a b c : String) (h : a ++ c = b ++ c) : a = b := by
  apply strData_inj
  have h2 : a.data ++ c.data = b.data ++ c.data := by
    rw [← strData_append, ← strData_append, h]
  exact List.append_cancel_right h2

/-- Cancellation on the left for string concatenation. -/
theorem str_append_cancel_left (a b c : String) (h : a ++ b = a ++ c) : b = c := by
  apply strData_inj
  have h2 : a.data ++ b.data = a.data ++ c.data := by
    rw [← strData_append, ← strData_append, h]
  exact List.append_cancel_left h2

/-! ### Injectivity of the JSON serialization

`jstr` is shown injective by exhibiting a fuelled parser and proving the
parse-of-print roundtrip.  (The parser is proof machinery only; it is not
part of the modelled program.)
-/

/-- Value of the ten digit characters. -/
theorem digitChar_toNat (k : Nat) (hk : k < 10) : (digitChar k).toNat = 48 + k := by
  interval_cases k <;> rfl

/-- Digit characters are digits. -/
theorem digitChar_isDigit (k : Nat) (hk : k < 10) : (digitChar k).isDigit = true := by
  interval_cases k <;> rfl

/-- Base-ten value of a digit string (most significant first). -/
def digitsVal (l : Str) : Nat := l.foldl (fun acc c => acc * 10 + (c.toNat - 48)) 0

/-- Appending one digit multiplies by ten and adds it. -/
theorem digitsVal_append_digit (a : Str) (d : Char) :
    digitsVal (a ++ [d]) = digitsVal a * 10 + (d.toNat - 48) := by
  unfold digitsVal
  rw [List.foldl_append]
  rfl

/-- `natDecAux` prints the decimal digits of its argument. -/
theorem natDecAux_val : ∀ fuel n, n < fuel → digitsVal (natDecAux fuel n) = n := by
  intro fuel
  induction fuel with
  | zero =>
    intro n h
    omega
  | succ fuel ih =>
    intro n h
    rw [natDecAux]
    by_cases h10 : n < 10
    · rw [if_pos h10]
      show 0 * 10 + ((digitChar n).toNat - 48) = n
      rw [digitChar_toNat n h10]
      omega
    · rw [if_neg h10, digitsVal_append_digit, ih (n / 10) (by omega),
        digitChar_toNat (n % 10) (Nat.mod_lt _ (by norm_num))]
      omega

/-- Printing then reading a natural number is the identity. -/
theorem natDec_val (n : Nat) : digitsVal (natDec n) = n :=
  natDecAux_val (n + 1) n (by omega)

/-- Every character printed by `natDecAux` is a digit. -/
theorem natDecAux_digits : ∀ fuel n c, c ∈ natDecAux fuel n → c.isDigit = true := by
  intro fuel
  induction fuel with
  | zero =>
    intro n c hc
    simp [natDecAux] at hc
  | succ fuel ih =>
    intro n c hc
    rw [natDecAux] at hc
    by_cases h10 : n < 10
    · rw [if_pos h10] at hc
      rw [List.mem_singleton.mp hc]
      exact digitChar_isDigit n h10
    · rw [if_neg h10] at hc
      rcases List.mem_append.mp hc with h1 | h1
      · exact ih _ c h1
      · rw [List.mem_singleton.mp h1]
        exact digitChar_isDigit (n % 10) (Nat.mod_lt _ (by norm_num))

/-- Every character printed by `natDec` is a digit. -/
theorem natDec_digits (n : Nat) (c : Char) (h : c ∈ natDec n) : c.isDigit = true :=
  natDecAux_digits (n + 1) n c h

/-- The decimal print is never empty. -/
theorem natDec_ne_nil (n : Nat) : natDec n ≠ [] := by
  unfold natDec
  rw [natDecAux]
  by_cases h10 : n < 10
  · rw [if_pos h10]
    simp
  · rw [if_neg h10]
    simp

/-- Longest digit-run split: the digit prefix and the rest. -/
def takeDigits : Str → Str × Str
  | [] => ([], [])
  | c :: r => if c.isDigit then ((takeDigits r).1.cons c, (takeDigits r).2) else ([], c :: r)

/-- `takeDigits` recovers a digit block followed by a non-digit boundary. -/
theorem takeDigits_spec : ∀ (d : Str), (∀ c ∈ d, c.isDigit = true) →
    ∀ (rest : Str), (∀ c, rest.head? = some c → c.isDigit = false) →
    takeDigits (d ++ rest) = (d, rest) := by
  intro d
  induction d with
  | nil =>
    intro _ rest hrest
    cases rest with
    | nil => rfl
    | cons c r =>
      show takeDigits (c :: r) = ([], c :: r)
      rw [takeDigits, if_neg]
      rw [hrest c rfl]
      simp
  | cons c d2 ih =>
    intro hd rest hrest
    show takeDigits (c :: (d2 ++ rest)) = (c :: d2, rest)
    rw [takeDigits, if_pos (by rw [hd c (List.mem_cons_self c d2)]),
      ih (fun x hx => hd x (List.mem_cons_of_mem c hx)) rest hrest]

/-- Number parser: an optional minus sign, then a nonempty digit run. -/
def parseNum (s : Str) : Option (Int × Str) :=
  match s with
  | [] => none
  | c :: r =>
    if c = '-' then
      if (takeDigits r).1 = [] then none
      else some (-(digitsVal (takeDigits r).1 : Int), (takeDigits r).2)
    else
      if (takeDigits (c :: r)).1 = [] then none
      else some ((digitsVal (takeDigits (c :: r)).1 : Int), (takeDigits (c :: r)).2)

/-- The characters after a serialized value in arrays, objects and at the
top level: end of input, comma, or a closing bracket. -/
def delimHead (r : Str) : Prop :=
  r.head? = none ∨ r.head? = some ',' ∨ r.head? = some ']' ∨ r.head? = some '}'

/-- Delimiters are not digits. -/
theorem delimHead_not_digit (r : Str) (h : delimHead r) :
    ∀ c, r.head? = some c → c.isDigit = false := by
  intro c hc
  rcases h with h | h | h | h <;> rw [hc] at h
  · exact absurd h (by simp)
  · rw [Option.some.inj h]
    rfl
  · rw [Option.some.inj h]
    rfl
  · rw [Option.some.inj h]
    rfl

/-- Parse-of-print for integers, up to a non-digit boundary. -/
theorem parseNum_roundtrip (n : Int) (rest : Str) (hrest : delimHead rest) :
    parseNum (intRepr n ++ rest) = some (n, rest) := by
  have hrd := delimHead_not_digit rest hrest
  by_cases hn : n < 0
  · have e : intRepr n ++ rest = '-' :: (natDec n.natAbs ++ rest) := by
      rw [intRepr, if_pos hn]
      rfl
    rw [e, parseNum]
    rw [if_pos rfl, takeDigits_spec (natDec n.natAbs) (fun c hc => natDec_digits _ c hc)
      rest hrd]
    rw [if_neg (natDec_ne_nil n.natAbs), natDec_val]
    have : -((n.natAbs : Nat) : Int) = n := by omega
    rw [this]
  · have e : intRepr n ++ rest = natDec n.toNat ++ rest := by
      rw [intRepr, if_neg hn]
    obtain ⟨c, cs, hc⟩ : ∃ c cs, natDec n.toNat = c :: cs := by
      cases hd : natDec n.toNat with
      | nil => exact absurd hd (natDec_ne_nil _)
      | cons c cs => exact ⟨c, cs, rfl⟩
    have hcdig : c.isDigit = true := natDec_digits n.toNat c (by rw [hc]; exact List.mem_cons_self c cs)
    rw [e, hc, List.cons_append, parseNum]
    rw [if_neg (by intro he; rw [he] at hcdig; exact absurd hcdig (by decide))]
    rw [← List.cons_append, ← hc,
      takeDigits_spec (natDec n.toNat) (fun x hx => natDec_digits _ x hx) rest hrd]
    rw [if_neg (natDec_ne_nil n.toNat), natDec_val]
    have : ((n.toNat : Nat) : Int) = n := by omega
    rw [this]

/-- Numeric value of a lower-case hexadecimal digit character. -/
def hexVal (c : Char) : Nat := if c.toNat ≤ 57 then c.toNat - 48 else c.toNat - 87

/-- `hexVal` inverts `hexDigitLower` below 16. -/
theorem hexVal_hexDigitLower (k : Nat) (hk : k < 16) : hexVal (hexDigitLower k) = k := by
  interval_cases k <;> rfl

/-- Named-escape decoding (the inverse of the named branch of
`escapeChar`); quote and backslash decode to themselves. -/
def decodeEscChar (d : Char) : Char :=
  if d = 'b' then Char.ofNat 8
  else if d = 'f' then Char.ofNat 12
  else if d = 'n' then Char.ofNat 10
  else if d = 'r' then Char.ofNat 13
  else if d = 't' then Char.ofNat 9
  else d

/-- Unicode-escape tail scanner: after a backslash-u, skip the two zero
digits, decode the two hex digits, continue with `k`. -/
def scanUnicode (k : Str → Option (Str × Str)) : Str → Option (Str × Str)
  | _ :: _ :: h1 :: h2 :: r3 =>
    (k r3).map (fun p => ((Char.ofNat (16 * hexVal h1 + hexVal h2)) :: p.1, p.2))
  | _ => none

/-- Escape-tail scanner: after a backslash, decode the escape, continue
with `k`. -/
def scanEscape (k : Str → Option (Str × Str)) : Str → Option (Str × Str)
  | [] => none
  | d :: r2 =>
    if d = 'u' then scanUnicode k r2
    else (k r2).map (fun p => (decodeEscChar d :: p.1, p.2))

/-- Fuelled JSON string-body scanner: decodes escapes until the closing
quote, returning the decoded characters and the input after the quote. -/
def scanStr : Nat → Str → Option (Str × Str)
  | 0, _ => none
  | _ + 1, [] => none
  | fuel + 1, c :: r =>
    if c = '"' then some ([], r)
    else if c = '\\' then scanEscape (scanStr fuel) r
    else (scanStr fuel r).map (fun p => (c :: p.1, p.2))

/-- Parse-of-print for escaped string bodies: scanning
`escapeStr s ++ closing-quote ++ t` recovers `s` and `t`. -/
theorem scanStr_roundtrip : ∀ (s : Str) (t : Str) (fuel : Nat), s.length < fuel →
    scanStr fuel (escapeStr s ++ '"' :: t) = some (s, t) := by
  intro s
  induction s with
  | nil =>
    intro t fuel hf
    cases fuel with
    | zero => omega
    | succ fuel => rfl
  | cons c s2 ih =>
    intro t fuel hf
    cases fuel with
    | zero => omega
    | succ fuel =>
      have ihx : scanStr fuel (escapeStr s2 ++ '"' :: t) = some (s2, t) :=
        ih t fuel (by simpa using Nat.lt_of_succ_lt_succ hf)
      have e : escapeStr (c :: s2) ++ '"' :: t
          = escapeChar c ++ (escapeStr s2 ++ '"' :: t) := by
        show (escapeChar c ++ escapeStr s2) ++ '"' :: t = _
        rw [List.append_assoc]
      rw [e]
      unfold escapeChar
      split_ifs with h1 h2 h3 h4 h5 h6 h7 h8
      · rw [show scanStr (fuel + 1) (['\\', '"'] ++ (escapeStr s2 ++ '"' :: t))
            = (scanStr fuel (escapeStr s2 ++ '"' :: t)).map
                (fun p => (decodeEscChar '"' :: p.1, p.2)) from rfl, ihx]
        rw [h1]
        rfl
      · rw [show scanStr (fuel + 1) (['\\', '\\'] ++ (escapeStr s2 ++ '"' :: t))
            = (scanStr fuel (escapeStr s2 ++ '"' :: t)).map
                (fun p => (decodeEscChar '\\' :: p.1, p.2)) from rfl, ihx]
        rw [h2]
        rfl
      · rw [show scanStr (fuel + 1) (['\\', 'b'] ++ (escapeStr s2 ++ '"' :: t))
            = (scanStr fuel (escapeStr s2 ++ '"' :: t)).map
                (fun p => (decodeEscChar 'b' :: p.1, p.2)) from rfl, ihx]
        show some (decodeEscChar 'b' :: s2, t) = some (c :: s2, t)
        rw [show decodeEscChar 'b' = Char.ofNat 8 from rfl, ← h3, Char.ofNat_toNat]
      · rw [show scanStr (fuel + 1) (['\\', 'f'] ++ (escapeStr s2 ++ '"' :: t))
            = (scanStr fuel (escapeStr s2 ++ '"' :: t)).map
                (fun p => (decodeEscChar 'f' :: p.1, p.2)) from rfl, ihx]
        show some (decodeEscChar 'f' :: s2, t) = some (c :: s2, t)
        rw [show decodeEscChar 'f' = Char.ofNat 12 from rfl, ← h4, Char.ofNat_toNat]
      · rw [show scanStr (fuel + 1) (['\\', 'n'] ++ (escapeStr s2 ++ '"' :: t))
            = (scanStr fuel (escapeStr s2 ++ '"' :: t)).map
                (fun p => (decodeEscChar 'n' :: p.1, p.2)) from rfl, ihx]
        show some (decodeEscChar 'n' :: s2, t) = some (c :: s2, t)
        rw [show decodeEscChar 'n' = Char.ofNat 10 from rfl, ← h5, Char.ofNat_toNat]
      · rw [show scanStr (fuel + 1) (['\\', 'r'] ++ (escapeStr s2 ++ '"' :: t))
            = (scanStr fuel (escapeStr s2 ++ '"' :: t)).map
                (fun p => (decodeEscChar 'r' :: p.1, p.2)) from rfl, ihx]
        show some (decodeEscChar 'r' :: s2, t) = some (c :: s2, t)
        rw [show decodeEscChar 'r' = Char.ofNat 13 from rfl, ← h6, Char.ofNat_toNat]
      · rw [show scanStr (fuel + 1) (['\\', 't'] ++ (escapeStr s2 ++ '"' :: t))
            = (scanStr fuel (escapeStr s2 ++ '"' :: t)).map
                (fun p => (decodeEscChar 't' :: p.1, p.2)) from rfl, ihx]
        show some (decodeEscChar 't' :: s2, t) = some (c :: s2, t)
        rw [show decodeEscChar 't' = Char.ofNat 9 from rfl, ← h7, Char.ofNat_toNat]
      · rw [show scanStr (fuel + 1) (['\\', 'u', '0', '0', hexDigitLower (c.toNat / 16),
              hexDigitLower (c.toNat % 16)] ++ (escapeStr s2 ++ '"' :: t))
            = (scanStr fuel (escapeStr s2 ++ '"' :: t)).map
                (fun p => ((Char.ofNat (16 * hexVal (hexDigitLower (c.toNat / 16))
                  + hexVal (hexDigitLower (c.toNat % 16)))) :: p.1, p.2)) from rfl, ihx]
        show some (Char.ofNat (16 * hexVal (hexDigitLower (c.toNat / 16))
          + hexVal (hexDigitLower (c.toNat % 16))) :: s2, t) = some (c :: s2, t)
        rw [hexVal_hexDigitLower (c.toNat / 16) (by omega),
          hexVal_hexDigitLower (c.toNat % 16) (by omega)]
        rw [show 16 * (c.toNat / 16) + c.toNat % 16 = c.toNat by omega, Char.ofNat_toNat]
      · rw [show ([c] : Str) ++ (escapeStr s2 ++ '"' :: t)
            = c :: (escapeStr s2 ++ '"' :: t) from rfl]
        rw [scanStr, if_neg h1, if_neg h2, ihx]
        rfl

mutual
/-- Size measure used as parser fuel. -/
def jsize : JVal → Nat
  | .null => 1
  | .bool _ => 1
  | .num _ => 1
  | .str s => s.data.length + 1
  | .arr l => jarrSize l + 1
  | .obj fs => jobjSize fs + 1
/-- Size of array spines. -/
def jarrSize : JArr → Nat
  | .nil => 1
  | .cons h t => jsize h + jarrSize t + 1
/-- Size of object spines. -/
def jobjSize : JObj → Nat
  | .nil => 1
  | .cons k v t => k.data.length + jsize v + jobjSize t + 1
end

/-- Values have positive size. -/
theorem jsize_pos (v : JVal) : 1 ≤ jsize v := by
  cases v with
  | null => exact Nat.le_refl 1
  | bool b => exact Nat.le_refl 1
  | num n => exact Nat.le_refl 1
  | str s =>
    show 1 ≤ s.data.length + 1
    omega
  | arr l =>
    show 1 ≤ jarrSize l + 1
    omega
  | obj fs =>
    show 1 ≤ jobjSize fs + 1
    omega

/-- Parser production tags. -/
inductive PMode where
  | val
  | arr
  | obj

/-- Parser outputs. -/
inductive POut where
  | v (x : JVal)
  | a (x : JArr)
  | o (x : JObj)

/-- Wrap a parsed array tail as an array value. -/
def asArrVal (p : POut × Str) : Option (POut × Str) :=
  match p.1 with
  | .a l => some (.v (.arr l), p.2)
  | _ => none

/-- Wrap a parsed object tail as an object value. -/
def asObjVal (p : POut × Str) : Option (POut × Str) :=
  match p.1 with
  | .o fs => some (.v (.obj fs), p.2)
  | _ => none

/-- Prepend a parsed element to a parsed array tail. -/
def consArr (v : JVal) (q : POut × Str) : Option (POut × Str) :=
  match q.1 with
  | .a l => some (.a (.cons v l), q.2)
  | _ => none

/-- Prepend a parsed field to a parsed object tail. -/
def consObj (k : String) (v : JVal) (q : POut × Str) : Option (POut × Str) :=
  match q.1 with
  | .o fs => some (.o (.cons k v fs), q.2)
  | _ => none

/-- After one array element: a comma continues the tail, a closing bracket
ends it. -/
def arrCont (pa : Str → Option (POut × Str)) (p : POut × Str) : Option (POut × Str) :=
  match p.1, p.2 with
  | .v v, ',' :: r2 => (pa r2).bind (consArr v)
  | .v v, ']' :: r2 => some (.a (.cons v .nil), r2)
  | _, _ => none

/-- After one object value: a comma continues the tail, a closing brace
ends it. -/
def objCont (po : Str → Option (POut × Str)) (k : String) (p : POut × Str) :
    Option (POut × Str) :=
  match p.1, p.2 with
  | .v v, ',' :: r5 => (po r5).bind (consObj k v)
  | .v v, '}' :: r5 => some (.o (.cons k v .nil), r5)
  | _, _ => none

/-- After an object key: a colon, then the value and the field tail. -/
def keyCont (pv : Str → Option (POut × Str)) (po : Str → Option (POut × Str))
    (kp : Str × Str) : Option (POut × Str) :=
  match kp.2 with
  | ':' :: r3 => (pv r3).bind (objCont po ⟨kp.1⟩)
  | _ => none

/-- Fuelled JSON parser for serialized values, nonempty array tails
(member list up to the closing bracket) and nonempty object tails. -/
def parseAny : Nat → PMode → Str → Option (POut × Str)
  | 0, _, _ => none
  | _ + 1, .val, [] => none
  | fuel + 1, .val, c :: r =>
    if c = 'n' then (if r.take 3 = ['u', 'l', 'l'] then some (.v .null, r.drop 3) else none)
    else if c = 't' then
      (if r.take 3 = ['r', 'u', 'e'] then some (.v (.bool true), r.drop 3) else none)
    else if c = 'f' then
      (if r.take 4 = ['a', 'l', 's', 'e'] then some (.v (.bool false), r.drop 4) else none)
    else if c = '"' then (scanStr fuel r).map (fun p => (.v (.str ⟨p.1⟩), p.2))
    else if c = '[' then
      if r.head? = some ']' then some (.v (.arr .nil), r.drop 1)
      else (parseAny fuel .arr r).bind asArrVal
    else if c = '{' then
      if r.head? = some '}' then some (.v (.obj .nil), r.drop 1)
      else (parseAny fuel .obj r).bind asObjVal
    else (parseNum (c :: r)).map (fun p => (.v (.num p.1), p.2))
  | fuel + 1, .arr, s => (parseAny fuel .val s).bind (arrCont (parseAny fuel .arr))
  | fuel + 1, .obj, s =>
    if s.head? = some '"' then
      (scanStr fuel (s.drop 1)).bind (keyCont (parseAny fuel .val) (parseAny fuel .obj))
    else none

/-- A nonempty prefix fixes the head of a concatenation. -/
theorem head?_append_some (a b : Str) (c : Char) (h : a.head? = some c) :
    (a ++ b).head? = some c := by
  cases a with
  | nil => exact absurd h (by simp)
  | cons x t =>
    rw [List.head?_cons] at h
    rw [List.cons_append, List.head?_cons]
    exact h

/-- The head of a comma-join is the head of the first member. -/
theorem joinComma_head (x : Str) (xs : List Str) (c : Char) (h : x.head? = some c) :
    (joinComma (x :: xs)).head? = some c := by
  cases xs with
  | nil => exact h
  | cons y ys =>
    show (x ++ ',' :: joinComma (y :: ys)).head? = some c
    exact head?_append_some _ _ _ h

/-- The serialization of a value is nonempty. -/
theorem intRepr_ne_nil (n : Int) : intRepr n ≠ [] := by
  unfold intRepr
  by_cases hn : n < 0
  · rw [if_pos hn]
    simp
  · rw [if_neg hn]
    exact natDec_ne_nil _

/-- Head classification of a serialized value: a keyword letter, a quote,
an opening bracket, a digit or a minus sign. -/
theorem jstrHead (v : JVal) : ∃ c, (jstr v).head? = some c ∧
    (c = 'n' ∨ c = 't' ∨ c = 'f' ∨ c = '"' ∨ c = '[' ∨ c = '{'
      ∨ c.isDigit = true ∨ c = '-') := by
  cases v with
  | null => exact ⟨'n', rfl, by decide⟩
  | bool b =>
    cases b
    · exact ⟨'f', rfl, by decide⟩
    · exact ⟨'t', rfl, by decide⟩
  | num n =>
    by_cases hn : n < 0
    · refine ⟨'-', ?_, by decide⟩
      rw [show jstr (.num n) = intRepr n from rfl, intRepr, if_pos hn]
      rfl
    · obtain ⟨c, cs, hc⟩ : ∃ c cs, natDec n.toNat = c :: cs := by
        cases hd : natDec n.toNat with
        | nil => exact absurd hd (natDec_ne_nil _)
        | cons c cs => exact ⟨c, cs, rfl⟩
      refine ⟨c, ?_, ?_⟩
      · rw [show jstr (.num n) = intRepr n from rfl, intRepr, if_neg hn, hc]
        rfl
      · refine Or.inr (Or.inr (Or.inr (Or.inr (Or.inr (Or.inr (Or.inl ?_))))))
        exact natDec_digits n.toNat c (by rw [hc]; exact List.mem_cons_self c cs)
  | str s => exact ⟨'"', rfl, by decide⟩
  | arr l => exact ⟨'[', rfl, by decide⟩
  | obj fs => exact ⟨'{', rfl, by decide⟩

/-- A serialized value never starts with a closing bracket. -/
theorem jstrHead_ne_brackets (v : JVal) (c : Char) (h : (jstr v).head? = some c) :
    c ≠ ']' ∧ c ≠ '}' := by
  obtain ⟨d, hd, hclass⟩ := jstrHead v
  rw [h] at hd
  obtain rfl := Option.some.inj hd
  rcases hclass with h1 | h1 | h1 | h1 | h1 | h1 | h1 | h1
  · rw [h1]
    exact ⟨by decide, by decide⟩
  · rw [h1]
    exact ⟨by decide, by decide⟩
  · rw [h1]
    exact ⟨by decide, by decide⟩
  · rw [h1]
    exact ⟨by decide, by decide⟩
  · rw [h1]
    exact ⟨by decide, by decide⟩
  · rw [h1]
    exact ⟨by decide, by decide⟩
  · constructor
    · intro he
      rw [he] at h1
      exact absurd h1 (by decide)
    · intro he
      rw [he] at h1
      exact absurd h1 (by decide)
  · rw [h1]
    exact ⟨by decide, by decide⟩

/-- A number head excludes every keyword and structural character. -/
theorem numChar_not_special (c : Char) (h : c.isDigit = true ∨ c = '-') :
    ¬ c = 'n' ∧ ¬ c = 't' ∧ ¬ c = 'f' ∧ ¬ c = '"' ∧ ¬ c = '[' ∧ ¬ c = '{' := by
  rcases h with h | h
  · refine ⟨?_, ?_, ?_, ?_, ?_, ?_⟩ <;>
      (intro he; rw [he] at h; exact absurd h (by decide))
  · rw [h]
    exact ⟨by decide, by decide, by decide, by decide, by decide, by decide⟩

/-- Array spines have positive size. -/
theorem jarrSize_pos (l : JArr) : 1 ≤ jarrSize l := by
  cases l with
  | nil => exact Nat.le_refl 1
  | cons h t =>
    show 1 ≤ jsize h + jarrSize t + 1
    omega

/-- Object spines have positive size. -/
theorem jobjSize_pos (fs : JObj) : 1 ≤ jobjSize fs := by
  cases fs with
  | nil => exact Nat.le_refl 1
  | cons k v t =>
    show 1 ≤ k.data.length + jsize v + jobjSize t + 1
    omega

/-- Parse-of-print: with enough fuel and a delimiter boundary, the parser
inverts the serialization of values and of nonempty array and object
member joins. -/
theorem parse_roundtrip : ∀ fuel : Nat,
    (∀ (v : JVal) (rest : Str), jsize v < fuel → delimHead rest →
      parseAny fuel .val (jstr v ++ rest) = some (.v v, rest)) ∧
    (∀ (l : JArr) (rest : Str), l ≠ .nil → jarrSize l < fuel →
      parseAny fuel .arr (joinComma (jstrArrM l) ++ ']' :: rest) = some (.a l, rest)) ∧
    (∀ (fs : JObj) (rest : Str), fs ≠ .nil → jobjSize fs < fuel →
      parseAny fuel .obj (joinComma (jstrObjM fs) ++ '}' :: rest) = some (.o fs, rest)) := by
  intro fuel
  induction fuel with
  | zero =>
    refine ⟨fun v _ hsz _ => absurd hsz (by have := jsize_pos v; omega),
      fun l _ _ hsz => absurd hsz (by have := jarrSize_pos l; omega),
      fun fs _ _ hsz => absurd hsz (by have := jobjSize_pos fs; omega)⟩
  | succ fuel ih =>
    obtain ⟨ihv, iha, iho⟩ := ih
    refine ⟨?_, ?_, ?_⟩
    · intro v rest hsz hdelim
      cases v with
      | null => rfl
      | bool b => cases b <;> rfl
      | num n =>
        obtain ⟨c, cs, hc⟩ : ∃ c cs, intRepr n = c :: cs := by
          cases hd : intRepr n with
          | nil => exact absurd hd (intRepr_ne_nil n)
          | cons c cs => exact ⟨c, cs, rfl⟩
        have hcnum : c.isDigit = true ∨ c = '-' := by
          unfold intRepr at hc
          by_cases hn : n < 0
          · rw [if_pos hn] at hc
            exact Or.inr (List.cons.inj hc).1.symm
          · rw [if_neg hn] at hc
            exact Or.inl (natDec_digits n.toNat c (by
              rw [hc]
              exact List.mem_cons_self c cs))
        obtain ⟨hn1, hn2, hn3, hn4, hn5, hn6⟩ := numChar_not_special c hcnum
        have e : jstr (JVal.num n) ++ rest = c :: (cs ++ rest) := by
          rw [show jstr (JVal.num n) = intRepr n from rfl, hc]
          rfl
        rw [e, parseAny, if_neg hn1, if_neg hn2, if_neg hn3, if_neg hn4, if_neg hn5,
          if_neg hn6,
          show (c :: (cs ++ rest)) = intRepr n ++ rest by rw [hc]; rfl,
          parseNum_roundtrip n rest hdelim]
        rfl
      | str s =>
        have hlen : s.data.length < fuel := by
          have h2 : s.data.length + 1 < fuel + 1 := hsz
          omega
        have e : jstr (JVal.str s) ++ rest = '"' :: (escapeStr s.data ++ '"' :: rest) := by
          show '"' :: ((escapeStr s.data ++ ['"']) ++ rest) = _
          rw [List.append_assoc]
          rfl
        rw [e,
          show parseAny (fuel + 1) .val ('"' :: (escapeStr s.data ++ '"' :: rest))
            = (scanStr fuel (escapeStr s.data ++ '"' :: rest)).map
                (fun p => (POut.v (.str ⟨p.1⟩), p.2)) from rfl,
          scanStr_roundtrip s.data rest fuel hlen]
        rfl
      | arr l =>
        cases l with
        | nil => rfl
        | cons h t =>
          have hszl : jarrSize (JArr.cons h t) < fuel := by
            have h2 : jarrSize (JArr.cons h t) + 1 < fuel + 1 := hsz
            omega
          obtain ⟨c0, hc0, _⟩ := jstrHead h
          have hjoin : (joinComma (jstrArrM (JArr.cons h t))).head? = some c0 :=
            joinComma_head (jstr h) (jstrArrM t) c0 hc0
          have hne2 : ¬ (joinComma (jstrArrM (JArr.cons h t)) ++ ']' :: rest).head?
              = some ']' := by
            rw [head?_append_some _ _ _ hjoin]
            intro hcons
            exact (jstrHead_ne_brackets h c0 hc0).1 (Option.some.inj hcons)
          have e : jstr (JVal.arr (JArr.cons h t)) ++ rest
              = '[' :: (joinComma (jstrArrM (JArr.cons h t)) ++ ']' :: rest) := by
            show '[' :: ((joinComma (jstrArrM (JArr.cons h t)) ++ [']']) ++ rest) = _
            rw [List.append_assoc]
            rfl
          rw [e, parseAny, if_neg (by decide), if_neg (by decide), if_neg (by decide),
            if_neg (by decide), if_pos rfl, if_neg hne2,
            iha (JArr.cons h t) rest (fun hx => JArr.noConfusion hx) hszl]
          rfl
      | obj fs =>
        cases fs with
        | nil => rfl
        | cons k v t =>
          have hszl : jobjSize (JObj.cons k v t) < fuel := by
            have h2 : jobjSize (JObj.cons k v t) + 1 < fuel + 1 := hsz
            omega
          have hjoin : (joinComma (jstrObjM (JObj.cons k v t))).head? = some '"' :=
            joinComma_head (jquote k ++ ':' :: jstr v) (jstrObjM t) '"' rfl
          have hne2 : ¬ (joinComma (jstrObjM (JObj.cons k v t)) ++ '}' :: rest).head?
              = some '}' := by
            rw [head?_append_some _ _ _ hjoin]
            intro hcons
            exact absurd (Option.some.inj hcons) (by decide)
          have e : jstr (JVal.obj (JObj.cons k v t)) ++ rest
              = '{' :: (joinComma (jstrObjM (JObj.cons k v t)) ++ '}' :: rest) := by
            show '{' :: ((joinComma (jstrObjM (JObj.cons k v t)) ++ ['}']) ++ rest) = _
            rw [List.append_assoc]
            rfl
          rw [e, parseAny, if_neg (by decide), if_neg (by decide), if_neg (by decide),
            if_neg (by decide), if_neg (by decide), if_pos rfl, if_neg hne2,
            iho (JObj.cons k v t) rest (fun hx => JObj.noConfusion hx) hszl]
          rfl
    · intro l rest hlne hsz
      cases l with
      | nil => exact absurd rfl hlne
      | cons h t =>
        have hszh : jsize h < fuel := by
          have h2 : jsize h + jarrSize t + 1 < fuel + 1 := hsz
          omega
        cases t with
        | nil =>
          have e : joinComma (jstrArrM (JArr.cons h JArr.nil)) ++ ']' :: rest
              = jstr h ++ ']' :: rest := rfl
          rw [e, parseAny, ihv h (']' :: rest) hszh (Or.inr (Or.inr (Or.inl rfl)))]
          rfl
        | cons h2 t2 =>
          have hszt : jarrSize (JArr.cons h2 t2) < fuel := by
            have hp := jsize_pos h
            have hx : jsize h + jarrSize (JArr.cons h2 t2) + 1 < fuel + 1 := hsz
            omega
          have e : joinComma (jstrArrM (JArr.cons h (JArr.cons h2 t2))) ++ ']' :: rest
              = jstr h ++ ',' :: (joinComma (jstrArrM (JArr.cons h2 t2)) ++ ']' :: rest) := by
            show (jstr h ++ ',' :: joinComma (jstrArrM (JArr.cons h2 t2))) ++ ']' :: rest = _
            rw [List.append_assoc]
            rfl
          rw [e, parseAny, ihv h (',' :: (joinComma (jstrArrM (JArr.cons h2 t2))
              ++ ']' :: rest)) hszh (Or.inr (Or.inl rfl)),
            show (some (POut.v h, ',' :: (joinComma (jstrArrM (JArr.cons h2 t2))
                ++ ']' :: rest))).bind (arrCont (parseAny fuel .arr))
              = (parseAny fuel .arr (joinComma (jstrArrM (JArr.cons h2 t2))
                ++ ']' :: rest)).bind (consArr h) from rfl,
            iha (JArr.cons h2 t2) rest (fun hx => JArr.noConfusion hx) hszt]
          rfl
    · intro fs rest hlne hsz
      cases fs with
      | nil => exact absurd rfl hlne
      | cons k v t =>
        have hszk : k.data.length < fuel := by
          have h2 : k.data.length + jsize v + jobjSize t + 1 < fuel + 1 := hsz
          have := jsize_pos v
          have := jobjSize_pos t
          omega
        have hszv : jsize v < fuel := by
          have h2 : k.data.length + jsize v + jobjSize t + 1 < fuel + 1 := hsz
          have := jobjSize_pos t
          omega
        cases t with
        | nil =>
          have e : joinComma (jstrObjM (JObj.cons k v JObj.nil)) ++ '}' :: rest
              = '"' :: (escapeStr k.data ++ '"' :: (':' :: (jstr v ++ '}' :: rest))) := by
            show (('"' :: (escapeStr k.data ++ ['"'])) ++ ':' :: jstr v) ++ '}' :: rest = _
            simp
          rw [e,
            show parseAny (fuel + 1) .obj
                ('"' :: (escapeStr k.data ++ '"' :: (':' :: (jstr v ++ '}' :: rest))))
              = (scanStr fuel (escapeStr k.data ++ '"' :: (':' :: (jstr v ++ '}' :: rest)))).bind
                  (keyCont (parseAny fuel .val) (parseAny fuel .obj)) from rfl,
            scanStr_roundtrip k.data (':' :: (jstr v ++ '}' :: rest)) fuel hszk,
            show (some (k.data, ':' :: (jstr v ++ '}' :: rest))).bind
                (keyCont (parseAny fuel .val) (parseAny fuel .obj))
              = (parseAny fuel .val (jstr v ++ '}' :: rest)).bind
                (objCont (parseAny fuel .obj) ⟨k.data⟩) from rfl,
            ihv v ('}' :: rest) hszv (Or.inr (Or.inr (Or.inr rfl)))]
          rfl
        | cons k2 v2 t2 =>
          have hszt : jobjSize (JObj.cons k2 v2 t2) < fuel := by
            have h2 : k.data.length + jsize v + jobjSize (JObj.cons k2 v2 t2) + 1
                < fuel + 1 := hsz
            have := jsize_pos v
            omega
          have e : joinComma (jstrObjM (JObj.cons k v (JObj.cons k2 v2 t2))) ++ '}' :: rest
              = '"' :: (escapeStr k.data ++ '"' :: (':' :: (jstr v ++ ',' ::
                  (joinComma (jstrObjM (JObj.cons k2 v2 t2)) ++ '}' :: rest)))) := by
            show ((('"' :: (escapeStr k.data ++ ['"'])) ++ ':' :: jstr v)
                ++ ',' :: joinComma (jstrObjM (JObj.cons k2 v2 t2))) ++ '}' :: rest = _
            simp
          rw [e,
            show parseAny (fuel + 1) .obj
                ('"' :: (escapeStr k.data ++ '"' :: (':' :: (jstr v ++ ',' ::
                  (joinComma (jstrObjM (JObj.cons k2 v2 t2)) ++ '}' :: rest)))))
              = (scanStr fuel (escapeStr k.data ++ '"' :: (':' :: (jstr v ++ ',' ::
                  (joinComma (jstrObjM (JObj.cons k2 v2 t2)) ++ '}' :: rest))))).bind
                  (keyCont (parseAny fuel .val) (parseAny fuel .obj)) from rfl,
            scanStr_roundtrip k.data (':' :: (jstr v ++ ',' ::
              (joinComma (jstrObjM (JObj.cons k2 v2 t2)) ++ '}' :: rest))) fuel hszk,
            show (some (k.data, ':' :: (jstr v ++ ',' ::
                  (joinComma (jstrObjM (JObj.cons k2 v2 t2)) ++ '}' :: rest)))).bind
                (keyCont (parseAny fuel .val) (parseAny fuel .obj))
              = (parseAny fuel .val (jstr v ++ ',' ::
                  (joinComma (jstrObjM (JObj.cons k2 v2 t2)) ++ '}' :: rest))).bind
                (objCont (parseAny fuel .obj) ⟨k.data⟩) from rfl,
            ihv v (',' :: (joinComma (jstrObjM (JObj.cons k2 v2 t2)) ++ '}' :: rest))
              hszv (Or.inr (Or.inl rfl)),
            show (some (POut.v v, ',' :: (joinComma (jstrObjM (JObj.cons k2 v2 t2))
                ++ '}' :: rest))).bind (objCont (parseAny fuel .obj) ⟨k.data⟩)
              = (parseAny fuel .obj (joinComma (jstrObjM (JObj.cons k2 v2 t2))
                ++ '}' :: rest)).bind (consObj ⟨k.data⟩ v) from rfl,
            iho (JObj.cons k2 v2 t2) rest (fun hx => JObj.noConfusion hx) hszt]
          rfl

/-- Injectivity of the JSON serialization. -/
theorem jstr_inj (a b : JVal) (h : jstr a = jstr b) : a = b := by
  have ha := (parse_roundtrip (jsize a + jsize b)).1 a []
    (by have := jsize_pos b; omega) (Or.inl rfl)
  have hb := (parse_roundtrip (jsize a + jsize b)).1 b []
    (by have := jsize_pos a; omega) (Or.inl rfl)
  rw [List.append_nil] at ha hb
  rw [h] at ha
  rw [ha] at hb
  injection Option.some.inj hb with h1 h2
  injection h1 with h3

/-- C9.  For a fixed client: two composable calls whose resolved request
shapes (every reactive ref unwrapped to its current plain value) are equal
derive the same auto key, even when the values come from distinct reactive
wrappers; when the external digest is collision-free, differing resolved
shapes derive different keys; a caller-supplied `key` option is used
verbatim, skipping derivation, and a nullish `key` falls back to the
derived key. -/
theorem C9_dedup_key (digest : Str → String) (client : String)
    (url1 method1 path1 query1 body1 url2 method2 path2 query2 body2 : RVal) :
    (resolveShape url1 method1 path1 query1 body1
        = resolveShape url2 method2 path2 query2 body2 →
      createAutoKey digest client url1 method1 path1 query1 body1
        = createAutoKey digest client url2 method2 path2 query2 body2) ∧
    ((∀ s t : Str, digest s = digest t → s = t) →
      resolveShape url1 method1 path1 query1 body1
        ≠ resolveShape url2 method2 path2 query2 body2 →
      createAutoKey digest client url1 method1 path1 query1 body1
        ≠ createAutoKey digest client url2 method2 path2 query2 body2) ∧
    (∀ k, useOpenFetchKey digest client (some k) url1 method1 path1 query1 body1 = k) ∧
    (useOpenFetchKey digest client none url1 method1 path1 query1 body1
      = createAutoKey digest client url1 method1 path1 query1 body1) := by
  refine ⟨?_, ?_, fun k => rfl, rfl⟩
  · intro he
    rw [createAutoKey_eq, createAutoKey_eq, he]
  · intro hinj hne he
    rw [createAutoKey_eq, createAutoKey_eq] at he
    exact hne (jstr_inj _ _ (hinj _ _
      (str_append_cancel_left ("$" ++ client ++ "-") _ _ he)))

/-- Witness for `C9_dedup_key`: a ref-wrapped and a plain url with equal
resolved shapes share a key; differing urls (under an injective digest)
get different keys; an explicit key passes through verbatim. -/
theorem C9_witness :
    createAutoKey (fun s => ⟨s⟩) "api" (.ref (.str "/pet")) .undef .undef .undef .undef
      = createAutoKey (fun s => ⟨s⟩) "api" (.str "/pet") .undef .undef .undef .undef ∧
    createAutoKey (fun s => ⟨s⟩) "api" (.str "/a") .undef .undef .undef .undef
      ≠ createAutoKey (fun s => ⟨s⟩) "api" (.str "/b") .undef .undef .undef .undef ∧
    useOpenFetchKey (fun s => ⟨s⟩) "api" (some "explicit") (.str "/pet")
      .undef .undef .undef .undef = "explicit" := by
  refine ⟨?_, ?_, ?_⟩
  · exact (C9_dedup_key (fun s => ⟨s⟩) "api" (.ref (.str "/pet")) .undef .undef .undef
      .undef (.str "/pet") .undef .undef .undef .undef).1 rfl
  · exact (C9_dedup_key (fun s => ⟨s⟩) "api" (.str "/a") .undef .undef .undef .undef
      (.str "/b") .undef .undef .undef .undef).2.1
      (fun s t h => congrArg String.data h) (by decide)
  · exact (C9_dedup_key (fun s => ⟨s⟩) "api" (.str "/pet") .undef .undef .undef .undef
      (.str "/pet") .undef .undef .undef .undef).2.2.1 "explicit"

/-- C10.  Auto keys are namespaced per client: the derived key is the
dollar sign, then the client identity, a dash, and the digest of the
serialized resolved request shape; consequently two clients with different
names never share an auto-derived key for identical resolved shapes. -/
theorem C10_key_namespacing (digest : Str → String) (c1 c2 : String)
    (url1 method1 path1 query1 body1 url2 method2 path2 query2 body2 : RVal) :
    createAutoKey digest c1 url1 method1 path1 query1 body1
      = "$" ++ c1 ++ "-" ++ digest (jstr (resolveShape url1 method1 path1 query1 body1)) ∧
    (resolveShape url1 method1 path1 query1 body1
        = resolveShape url2 method2 path2 query2 body2 →
      c1 ≠ c2 →
      createAutoKey digest c1 url1 method1 path1 query1 body1
        ≠ createAutoKey digest c2 url2 method2 path2 query2 body2) := by
  refine ⟨createAutoKey_eq digest c1 url1 method1 path1 query1 body1, ?_⟩
  intro hshape hne he
  rw [createAutoKey_eq, createAutoKey_eq, hshape] at he
  have h1 : ("$" ++ c1) ++ "-" = ("$" ++ c2) ++ "-" := str_append_cancel_right _ _ _ he
  have h2 : "$" ++ c1 = "$" ++ c2 := str_append_cancel_right _ _ _ h1
  exact hne (str_append_cancel_left "$" c1 c2 h2)

/-- Witness for `C10_key_namespacing`: two differently named clients with
the same resolved shape derive different keys, each in the dollar-name-dash
format. -/
theorem C10_witness :
    createAutoKey (fun s => ⟨s⟩) "api" (.str "/pet") .undef .undef .undef .undef
      = "$" ++ "api" ++ "-"
        ++ ((fun (s : Str) => (⟨s⟩ : String))
          (jstr (resolveShape (.str "/pet") .undef .undef .undef .undef))) ∧
    createAutoKey (fun s => ⟨s⟩) "api" (.str "/pet") .undef .undef .undef .undef
      ≠ createAutoKey (fun s => ⟨s⟩) "pets" (.str "/pet") .undef .undef .undef .undef := by
  constructor
  · exact (C10_key_namespacing (fun s => ⟨s⟩) "api" "pets" (.str "/pet") .undef .undef
      .undef .undef (.str "/pet") .undef .undef .undef .undef).1
  · exact (C10_key_namespacing (fun s => ⟨s⟩) "api" "pets" (.str "/pet") .undef .undef
      .undef .undef (.str "/pet") .undef .undef .undef .undef).2 rfl (by decide)

end NuxtOpenFetch
